import Mathlib

/-!
Shallow embedding of the Employee Data Analysis System
(src/employee_system.py) and verification of its specification.

Modelling conventions:
* Python numbers (int / float) are embedded as rationals (ℚ).  The
  generator only ever produces integer salaries and one-decimal
  performance scores, both exactly representable.
* Python exceptions are embedded as an explicit error type PyErr, and
  fallible computations return Except PyErr.
* The implicit global random source of the generator is embedded as an
  explicit function from the loop index to a bundle of draws, each draw
  constrained by construction to exactly the range the corresponding
  random.randint / random.choice / round(random.uniform ..) call yields.
* datetime.now().strftime is external to the program; it is embedded as
  an abstract formatting parameter (fmtDate for joining dates, now for
  the report timestamp).
* python str slicing, truncation int(), and the csv module dialect
  (QUOTE_MINIMAL quoting, CRLF row terminator) are embedded explicitly
  below, following the documented behaviour the source relies on.
-/

namespace EmployeeSystem

/-- Errors the Python source can raise in the embedded fragment. -/
inductive PyErr where
  | zeroDivision
  | indexError
  | valueError
deriving DecidableEq

/-- Employee record: mirrors class Employee of src/employee_system.py
(attributes emp_id, name, department, salary, joining_date,
performance_score). -/
structure Employee where
  emp_id : String
  name : String
  department : String
  salary : Rat
  joining_date : String
  performance_score : Rat
deriving DecidableEq

/-! ### Decimal digit rendering (used by f-string formatting and str()) -/

/-- Character for a single decimal digit d (0 ≤ d ≤ 9). -/
def digitChar (d : Nat) : Char := Char.ofNat (48 + d)

/-- Fuel-indexed decimal digit rendering; the fuel only serves to make
the recursion structural (hence kernel-evaluable).  natDigits below
always supplies enough fuel. -/
def natDigitsAux : Nat → Nat → List Char
  | 0, _ => []
  | fuel + 1, n =>
    if n < 10 then [digitChar n]
    else natDigitsAux fuel (n / 10) ++ [digitChar (n % 10)]

/-- Decimal digits of a natural number, most significant first
(the digits Python prints for a nonnegative int). -/
def natDigits (n : Nat) : List Char := natDigitsAux (n + 1) n

/-- Decimal string of a natural number. -/
def natStr (n : Nat) : String := String.mk (natDigits n)

/-- Decimal string of an integer (Python str for ints). -/
def intStr (i : Int) : String :=
  if i < 0 then "-" ++ natStr i.natAbs else natStr i.natAbs

/-- Value of a digit character. -/
def charVal (c : Char) : Nat := c.toNat - 48

/-- Numeric value of a list of decimal digit characters
(most significant first). -/
def digitsVal (cs : List Char) : Nat :=
  cs.foldl (fun acc c => acc * 10 + charVal c) 0

/-- Zero-padding of Python format spec 0Nd: pad the digit list on the
left with zeros up to width w. -/
def padZeros (w : Nat) (cs : List Char) : List Char :=
  List.replicate (w - cs.length) '0' ++ cs

/-- Python f"EMP{i:04d}" for a nonnegative i. -/
def pad4 (i : Nat) : String := String.mk (padZeros 4 (natDigits i))

/-! ### Generator (class EmployeeDataGenerator) -/

/-- Class constant DEPARTMENTS. -/
def DEPARTMENTS : List String := ["Engineering", "Sales", "Marketing", "HR", "Finance"]

/-- Class constant FIRST_NAMES. -/
def FIRST_NAMES : List String :=
  ["Ahmed", "Fatima", "Mohammad", "Ayesha", "Karim",
   "Nadia", "Rahim", "Zara", "Ali", "Samira",
   "Hassan", "Laila", "Omar", "Sara", "Tariq",
   "Amina", "Bilal", "Huda", "Ibrahim", "Maryam"]

/-- Class constant LAST_NAMES. -/
def LAST_NAMES : List String :=
  ["Khan", "Ahmed", "Rahman", "Hassan", "Ali",
   "Mahmud", "Hossain", "Islam", "Chowdhury", "Akter",
   "Siddiqui", "Malik", "Sheikh", "Hussain", "Begum"]

/-- Base salaries by department (local dict base_salaries in
generate_employees). -/
def base_salaries : List (String × Int) :=
  [("Engineering", 80000),
   ("Sales", 60000),
   ("Marketing", 55000),
   ("HR", 50000),
   ("Finance", 70000)]

/-- One iteration worth of random draws.  Each field is constrained by
construction to the exact range of the corresponding call in the
source: random.choice over the three name/department pools,
random.randint(-10000, 30000) (encoded as -10000 + variation),
random.randint(0, 1825), and round(random.uniform(5.0, 10.0), 1)
(whose possible results are exactly the multiples of 1/10 from 5.0 to
10.0, encoded as (50 + perfTenths) / 10). -/
structure Draw where
  firstName : Fin FIRST_NAMES.length
  lastName : Fin LAST_NAMES.length
  dept : Fin DEPARTMENTS.length
  variation : Fin 40001
  daysAgo : Fin 1826
  perfTenths : Fin 51
deriving DecidableEq

/-- Static method EmployeeDataGenerator.generate_employees.  fmtDate
embeds (datetime.now() - timedelta(days=days_ago)).strftime, applied
to the drawn days_ago; rand embeds the global random source, indexed
by loop iteration. -/
def generate_employees (fmtDate : Nat → String) (rand : Nat → Draw)
    (num_employees : Nat) : List Employee :=
  (List.range num_employees).map fun i0 =>
    let i := i0 + 1
    let d := rand i0
    let emp_id := "EMP" ++ pad4 i
    let first_name := FIRST_NAMES.get d.firstName
    let last_name := LAST_NAMES.get d.lastName
    let name := first_name ++ " " ++ last_name
    let department := DEPARTMENTS.get d.dept
    let base := (base_salaries.lookup department).getD 0
    let variation : Int := -10000 + (d.variation : Int)
    let salary : Int := max (base + variation) 30000
    let joining_date := fmtDate d.daysAgo
    let performance_score : Rat := ((50 + (d.perfTenths : Nat) : Nat) : Rat) / 10
    { emp_id := emp_id
      name := name
      department := department
      salary := (salary : Rat)
      joining_date := joining_date
      performance_score := performance_score }

/-! ### Analyzer (class EmployeeAnalyzer) -/

/-- Python true division, raising ZeroDivisionError on a zero divisor. -/
def pyDiv (a b : Rat) : Except PyErr Rat :=
  if b = 0 then .error .zeroDivision else .ok (a / b)

/-- Python slicing xs[:n]: a negative stop counts from the end of the
list (clamped at zero). -/
def pySliceTo (n : Int) (xs : List α) : List α :=
  xs.take (if 0 ≤ n then n.toNat else ((xs.length : Int) + n).toNat)

/-- Python int() truncation towards zero of a rational. -/
def pyInt (q : Rat) : Int := if q < 0 then ⌈q⌉ else ⌊q⌋

/-- Per-department accumulator, as first built by
get_department_statistics (keys count, total_salary,
total_performance, employees of the inner dict). -/
structure DeptAcc where
  count : Nat
  total_salary : Rat
  total_performance : Rat
  employees : List Employee
deriving DecidableEq

/-- Per-department statistics after the second loop added the averages
(keys avg_salary and avg_performance). -/
structure DeptStats where
  count : Nat
  total_salary : Rat
  total_performance : Rat
  employees : List Employee
  avg_salary : Rat
  avg_performance : Rat
deriving DecidableEq

/-- One iteration of the aggregation loop of get_department_statistics:
the Python dict keyed by department name, in insertion order, is an
association list; a missing key is initialised to the zero accumulator
and then updated in place. -/
def addEmp (emp : Employee) : List (String × DeptAcc) → List (String × DeptAcc)
  | [] => [(emp.department,
      { count := 0 + 1, total_salary := 0 + emp.salary,
        total_performance := 0 + emp.performance_score, employees := [emp] })]
  | (d, a) :: rest =>
    if d = emp.department then
      (d, { count := a.count + 1, total_salary := a.total_salary + emp.salary,
            total_performance := a.total_performance + emp.performance_score,
            employees := a.employees ++ [emp] }) :: rest
    else (d, a) :: addEmp emp rest

/-- Second loop of get_department_statistics: extend one group with
its two averages (a ZeroDivisionError would surface here if a group
had count zero). -/
def deptAverages (p : String × DeptAcc) : Except PyErr (String × DeptStats) := do
  let count : Nat := p.2.count
  let avg_salary ← pyDiv p.2.total_salary (count : Rat)
  let avg_performance ← pyDiv p.2.total_performance (count : Rat)
  pure (p.1, { count := count, total_salary := p.2.total_salary,
               total_performance := p.2.total_performance,
               employees := p.2.employees,
               avg_salary := avg_salary, avg_performance := avg_performance })

/-- Method get_department_statistics: aggregate by department, then
compute the two averages per group. -/
def get_department_statistics (employees : List Employee) :
    Except PyErr (List (String × DeptStats)) :=
  let dept_data := employees.foldl (fun m emp => addEmp emp m) []
  dept_data.mapM deptAverages

/-- Comparison used by sorted(..., key=lambda e: e.performance_score,
reverse=True): a precedes b when its score is at least the score of b;
Python sorting is stable, which insertionSort realises. -/
def scoreGE (a b : Employee) : Prop := b.performance_score ≤ a.performance_score

instance : DecidableRel scoreGE := fun a b =>
  inferInstanceAs (Decidable (b.performance_score ≤ a.performance_score))

instance : IsTotal Employee scoreGE :=
  ⟨fun a b => le_total b.performance_score a.performance_score⟩

instance : IsTrans Employee scoreGE :=
  ⟨fun _ _ _ hab hbc => le_trans hbc hab⟩

/-- Method get_top_performers: stable sort by performance score
descending, then slice the first n. -/
def get_top_performers (employees : List Employee) (n : Int) : List Employee :=
  let sorted_employees := List.insertionSort scoreGE employees
  pySliceTo n sorted_employees

/-- Fixed bucket counters of get_salary_range_distribution (the dict
literal ranges, whose keys stay in this fixed insertion order). -/
structure SalaryRanges where
  r0to50 : Nat
  r50to70 : Nat
  r70to90 : Nat
  r90to100 : Nat
  r100plus : Nat
deriving DecidableEq

/-- Items of the ranges dict in insertion order. -/
def SalaryRanges.toList (r : SalaryRanges) : List (String × Nat) :=
  [("0-50k", r.r0to50), ("50k-70k", r.r50to70), ("70k-90k", r.r70to90),
   ("90k-100k", r.r90to100), ("100k+", r.r100plus)]

/-- One iteration of the bucket loop: the if/elif chain of
get_salary_range_distribution, evaluated in source order. -/
def bucketInc (r : SalaryRanges) (emp : Employee) : SalaryRanges :=
  if emp.salary < 50000 then { r with r0to50 := r.r0to50 + 1 }
  else if emp.salary < 70000 then { r with r50to70 := r.r50to70 + 1 }
  else if emp.salary < 90000 then { r with r70to90 := r.r70to90 + 1 }
  else if emp.salary < 100000 then { r with r90to100 := r.r90to100 + 1 }
  else { r with r100plus := r.r100plus + 1 }

/-- Method get_salary_range_distribution. -/
def get_salary_range_distribution (employees : List Employee) : SalaryRanges :=
  employees.foldl bucketInc ⟨0, 0, 0, 0, 0⟩

/-- Bucket label selected for a given salary; restates the if/elif
chain of the source as a function so each employee is counted in
exactly one bucket. -/
def bucketOf (salary : Rat) : String :=
  if salary < 50000 then "0-50k"
  else if salary < 70000 then "50k-70k"
  else if salary < 90000 then "70k-90k"
  else if salary < 100000 then "90k-100k"
  else "100k+"

/-- Fixed order of bucket labels. -/
def bucketLabels : List String := ["0-50k", "50k-70k", "70k-90k", "90k-100k", "100k+"]

/-! ### Python string formatting helpers -/

/-- Python "c" * n for a single character (empty for n = 0). -/
def charRepeat (n : Nat) (c : Char) : String := String.mk (List.replicate n c)

/-- Spaces used by width padding. -/
def spaces (n : Nat) : String := charRepeat n ' '

/-- Format spec {:Ns}: left-justify in a field of width w (strings
longer than w are kept whole). -/
def padLeftStr (w : Nat) (s : String) : String := s ++ spaces (w - s.length)

/-- Right justification used by numeric format specs such as {:3d} and
{:5.1f}. -/
def padRightStr (w : Nat) (s : String) : String := spaces (w - s.length) ++ s

/-- Round-half-even (banker's rounding), the rounding of Python float
formatting. -/
def roundHalfEven (x : Rat) : Int :=
  let f := ⌊x⌋
  let frac := x - (f : Rat)
  if frac < 1 / 2 then f
  else if 1 / 2 < frac then f + 1
  else if f % 2 = 0 then f else f + 1

/-- Format spec {:.Pf}: fixed-point with exactly P decimal places. -/
def fmtFixed (prec : Nat) (q : Rat) : String :=
  let scaled := roundHalfEven (q * 10 ^ prec)
  let a := scaled.natAbs
  let sign := if scaled < 0 then "-" else ""
  if prec = 0 then sign ++ natStr a
  else sign ++ natStr (a / 10 ^ prec) ++ "." ++
    String.mk (padZeros prec (natDigits (a % 10 ^ prec)))

/-- Insert a comma after every third character of a reversed digit
list (helper for the thousands separator of format spec {:,}). -/
def group3Rev : List Char → List Char
  | a :: b :: c :: d :: rest => a :: b :: c :: ',' :: group3Rev (d :: rest)
  | l => l

/-- Thousands grouping of a digit list. -/
def groupDigits (cs : List Char) : List Char := (group3Rev cs.reverse).reverse

/-- Format spec {:,.Pf}: fixed-point with P decimals and
comma-separated thousands. -/
def fmtComma (prec : Nat) (q : Rat) : String :=
  let scaled := roundHalfEven (q * 10 ^ prec)
  let a := scaled.natAbs
  let sign := if scaled < 0 then "-" else ""
  if prec = 0 then sign ++ String.mk (groupDigits (natDigits a))
  else sign ++ String.mk (groupDigits (natDigits (a / 10 ^ prec))) ++ "." ++
    String.mk (padZeros prec (natDigits (a % 10 ^ prec)))

/-- Smallest exponent k (bounded by the denominator) such that
q * 10 ^ k is an integer, when one exists; exactly the rationals in
the image of Python floats (and ints) have one. -/
def decExp (q : Rat) : Option Nat :=
  (List.range (q.den + 1)).find? (fun k => (q * 10 ^ k).den = 1)

/-- Python str() of a number embedded as a rational: integers render
with no decimal point, other decimal-representable values with their
exact (shortest) decimal expansion.  (The embedding does not track the
Python int/float distinction, so integral floats render without the
trailing ".0"; no claim depends on that cosmetic difference.)  The
fraction fallback is unreachable for values the program produces. -/
def renderNum (q : Rat) : String :=
  match decExp q with
  | some k =>
    let m := (q * 10 ^ k).num
    let sign := if m < 0 then "-" else ""
    let a := m.natAbs
    if k = 0 then sign ++ natStr a
    else sign ++ natStr (a / 10 ^ k) ++ "." ++
      String.mk (padZeros k (natDigits (a % 10 ^ k)))
  | none => intStr q.num ++ "/" ++ natStr q.den

/-! ### Report generation (method generate_report) -/

/-- Line of equal signs: "=" * 80. -/
def hr80 : String := charRepeat 80 '='

/-- Line of dashes: "-" * 80. -/
def dash80 : String := charRepeat 80 '-'

/-- Ordering of sorted(dept_stats.items()): Python compares the
(name, stats) tuples, which on distinct department names is the
lexicographic string order on the names. -/
def keyLE (a b : String × DeptStats) : Prop := a.1 ≤ b.1

instance : DecidableRel keyLE := fun a b =>
  inferInstanceAs (Decidable (a.1 ≤ b.1))

/-- Department Statistics section body (four lines per department,
the first carrying the leading newline of f-string "\n{dept}:"). -/
def report_dept_lines (employees : List Employee) : Except PyErr (List String) := do
  let dept_stats ← get_department_statistics employees
  pure ((List.insertionSort keyLE dept_stats).flatMap fun p =>
    ["\n" ++ p.1 ++ ":",
     "  Number of Employees: " ++ natStr p.2.count,
     "  Average Salary: $" ++ fmtComma 2 p.2.avg_salary,
     "  Average Performance Score: " ++ fmtFixed 2 p.2.avg_performance ++ "/10"])

/-- Top 10 Performers section body: enumerate(top_performers, 1). -/
def report_top_lines (employees : List Employee) : List String :=
  let top_performers := get_top_performers employees 10
  top_performers.enum.map fun p =>
    padRightStr 2 (natStr (p.1 + 1)) ++ ". " ++ padLeftStr 25 p.2.name ++
      " (" ++ padLeftStr 12 p.2.department ++ ") - Score: " ++
      renderNum p.2.performance_score ++ "/10"

/-- Visual bar of the Salary Distribution section:
"█" * int(percentage / 2). -/
def dist_bar (percentage : Rat) : String :=
  charRepeat (pyInt (percentage / 2)).toNat '█'

/-- One line of the Salary Distribution section; the division
count / len(self.employees) raises ZeroDivisionError on an empty
collection. -/
def report_dist_line (total : Nat) (range_name : String) (count : Nat) :
    Except PyErr String := do
  let frac ← pyDiv (count : Rat) (total : Rat)
  let percentage := frac * 100
  pure (padLeftStr 12 range_name ++ ": " ++ padRightStr 3 (natStr count) ++
    " employees (" ++ padRightStr 5 (fmtFixed 1 percentage) ++ "%) " ++
    dist_bar percentage)

/-- Value of a successful Salary Distribution line. -/
def distLineStr (total : Nat) (range_name : String) (count : Nat) : String :=
  let percentage := (count : Rat) / (total : Rat) * 100
  padLeftStr 12 range_name ++ ": " ++ padRightStr 3 (natStr count) ++
    " employees (" ++ padRightStr 5 (fmtFixed 1 percentage) ++ "%) " ++
    dist_bar percentage

/-- Salary Distribution section body. -/
def report_dist_lines (employees : List Employee) : Except PyErr (List String) :=
  (get_salary_range_distribution employees).toList.mapM
    (fun p => report_dist_line employees.length p.1 p.2)

/-- Median salary of the Overall Statistics section:
sorted(all_salaries)[len(all_salaries) // 2], raising IndexError on an
empty collection. -/
def median_salary (employees : List Employee) : Except PyErr Rat :=
  let all_salaries := employees.map Employee.salary
  match (List.insertionSort (fun a b : Rat => a ≤ b) all_salaries)[all_salaries.length / 2]? with
  | some q => .ok q
  | none => .error .indexError

/-- Overall Statistics section body; mean, median, min/max and mean
performance raise on an empty collection. -/
def report_overall_lines (employees : List Employee) : Except PyErr (List String) := do
  let all_salaries := employees.map Employee.salary
  let all_performances := employees.map Employee.performance_score
  let avg_salary ← pyDiv all_salaries.sum (all_salaries.length : Rat)
  let median ← median_salary employees
  let some mn := all_salaries.min? | .error .valueError
  let some mx := all_salaries.max? | .error .valueError
  let avg_perf ← pyDiv all_performances.sum (all_performances.length : Rat)
  pure ["Average Salary (All Departments): $" ++ fmtComma 2 avg_salary,
        "Median Salary: $" ++ fmtComma 2 median,
        "Salary Range: $" ++ fmtComma 2 mn ++ " - $" ++ fmtComma 2 mx,
        "Average Performance Score: " ++ fmtFixed 2 avg_perf ++ "/10"]

/-- All lines of the report, in source append order; now embeds
datetime.now().strftime of the report timestamp. -/
def report_lines (now : String) (employees : List Employee) :
    Except PyErr (List String) := do
  let header := [hr80, "EMPLOYEE DATA ANALYSIS REPORT", hr80,
                 "Generated: " ++ now,
                 "Total Employees Analyzed: " ++ natStr employees.length, ""]
  let dept_lines ← report_dept_lines employees
  let top_lines := report_top_lines employees
  let dist_lines ← report_dist_lines employees
  let overall_lines ← report_overall_lines employees
  pure (header ++ ["DEPARTMENT STATISTICS:", dash80] ++ dept_lines ++ [""] ++
    ["TOP 10 PERFORMERS:", dash80] ++ top_lines ++ [""] ++
    ["SALARY DISTRIBUTION:", dash80] ++ dist_lines ++ [""] ++
    ["OVERALL STATISTICS:", dash80] ++ overall_lines ++
    ["", hr80, "End of Report", hr80])

/-- Method generate_report: "\n".join(lines). -/
def generate_report (now : String) (employees : List Employee) :
    Except PyErr String :=
  (report_lines now employees).map (String.intercalate "\n")

/-! ### File adapter (class FileManager): CSV save and load

The csv module is modelled at the level of its documented default
dialect: fields are joined with commas, a field containing a comma,
quote or newline is wrapped in double quotes with inner quotes
doubled (QUOTE_MINIMAL), and each row ends in CRLF; the reader is the
matching state machine.  DictWriter stringifies each value with str()
(renderNum for the numeric fields) and DictReader maps the header row
positionally onto each data row. -/

/-- Fieldnames of save_to_csv (also the header row). -/
def fieldnames : List String :=
  ["emp_id", "name", "department", "salary", "joining_date", "performance_score"]

/-- Method Employee.to_dict followed by DictWriter stringification:
the six field values, in fieldnames order, as written to the file. -/
def Employee.toRow (e : Employee) : List String :=
  [e.emp_id, e.name, e.department, renderNum e.salary, e.joining_date,
   renderNum e.performance_score]

/-- QUOTE_MINIMAL: quote exactly the fields containing a delimiter,
quote or line break. -/
def csvNeedsQuote (s : String) : Bool :=
  s.data.any (fun c => c = ',' || c = '"' || c = '\r' || c = '\n')

/-- Double every inner quote of a quoted field. -/
def csvEscapeChars : List Char → List Char
  | [] => []
  | c :: cs =>
    if c = '"' then '"' :: '"' :: csvEscapeChars cs
    else c :: csvEscapeChars cs

/-- One serialised field. -/
def csvField (s : String) : String :=
  if csvNeedsQuote s then "\"" ++ String.mk (csvEscapeChars s.data) ++ "\"" else s

/-- One serialised row (fields joined with the comma delimiter). -/
def csvRow : List String → String
  | [] => ""
  | [f] => csvField f
  | f :: rest => csvField f ++ "," ++ csvRow rest

/-- Method FileManager.save_to_csv, returning the file content:
header row then one row per employee, each terminated by CRLF. -/
def save_to_csv (employees : List Employee) : String :=
  (fieldnames :: employees.map Employee.toRow).foldr
    (fun r acc => csvRow r ++ "\r\n" ++ acc) ""

/-- State machine of the csv reader.  fieldAcc holds the current field
reversed, rowAcc the current row reversed.  In a quoted field a
doubled quote is a literal quote and a single quote ends the quoted
region; outside, a comma ends the field, CRLF (or a bare CR or LF)
ends the row, and a quote at the start of a field opens a quoted
region. -/
def csvScan : Bool → List Char → List String → List Char → List (List String)
  | inQ, field, row, [] =>
    if inQ = false && field.isEmpty && row.isEmpty then []
    else [(String.mk field.reverse :: row).reverse]
  | true, field, row, '"' :: '"' :: cs => csvScan true ('"' :: field) row cs
  | true, field, row, '"' :: cs => csvScan false field row cs
  | true, field, row, c :: cs => csvScan true (c :: field) row cs
  | false, field, row, '"' :: cs =>
    if field.isEmpty then csvScan true field row cs
    else csvScan false ('"' :: field) row cs
  | false, field, row, ',' :: cs =>
    csvScan false [] (String.mk field.reverse :: row) cs
  | false, field, row, '\r' :: '\n' :: cs =>
    (String.mk field.reverse :: row).reverse :: csvScan false [] [] cs
  | false, field, row, '\r' :: cs =>
    (String.mk field.reverse :: row).reverse :: csvScan false [] [] cs
  | false, field, row, '\n' :: cs =>
    (String.mk field.reverse :: row).reverse :: csvScan false [] [] cs
  | false, field, row, c :: cs => csvScan false (c :: field) row cs

/-- Rows of a CSV document. -/
def csvParse (content : String) : List (List String) :=
  csvScan false [] [] content.data

/-- Python float() on the strings the writer produces: optional minus
sign, integer digits, optional fractional digits. -/
def parseUnsignedFloat (l : List Char) : Option Rat :=
  let ip := l.takeWhile (fun c => c.isDigit)
  match l.dropWhile (fun c => c.isDigit) with
  | [] => if ip.isEmpty then none else some ((digitsVal ip : Nat) : Rat)
  | '.' :: fp =>
    if fp.all (fun c => c.isDigit) && !(ip.isEmpty && fp.isEmpty) then
      some (((digitsVal ip : Nat) : Rat) + ((digitsVal fp : Nat) : Rat) / 10 ^ fp.length)
    else none
  | _ => none

/-- Python float() (on the renderNum image). -/
def parseFloat (s : String) : Option Rat :=
  if s.data.head? = some '-' then
    (parseUnsignedFloat s.data.tail).map (fun q => -q)
  else parseUnsignedFloat s.data

/-- Python dict(zip(header, row))[key] as DictReader performs it. -/
def rowLookup (header row : List String) (key : String) : Option String :=
  (header.zip row).lookup key

/-- One iteration of the load loop: build an Employee from a row,
coercing salary and performance_score with float(); a missing field or
an unparseable number is a fatal error. -/
def parse_employee_row (header row : List String) : Except PyErr Employee := do
  let some emp_id := rowLookup header row "emp_id" | .error .valueError
  let some name := rowLookup header row "name" | .error .valueError
  let some department := rowLookup header row "department" | .error .valueError
  let some salaryS := rowLookup header row "salary" | .error .valueError
  let some joining_date := rowLookup header row "joining_date" | .error .valueError
  let some performanceS := rowLookup header row "performance_score" | .error .valueError
  let some salary := parseFloat salaryS | .error .valueError
  let some performance_score := parseFloat performanceS | .error .valueError
  pure { emp_id := emp_id, name := name, department := department,
         salary := salary, joining_date := joining_date,
         performance_score := performance_score }

/-- Universal-newlines translation of Python text mode: load_from_csv
opens with plain open(filename, 'r') — without the newline='' the csv
module requires — so the default newline=None rewrites every '\r\n'
and every lone '\r' of the raw file to '\n' BEFORE the csv reader
sees the stream, including inside quoted fields. -/
def universalNewlines : List Char → List Char
  | [] => []
  | '\r' :: '\n' :: cs => '\n' :: universalNewlines cs
  | '\r' :: cs => '\n' :: universalNewlines cs
  | c :: cs => c :: universalNewlines cs

/-- Method FileManager.load_from_csv on the raw file content string:
text-mode read (universal newlines), then the csv reader. -/
def load_from_csv (content : String) : Except PyErr (List Employee) :=
  match csvParse (String.mk (universalNewlines content.data)) with
  | [] => .ok []
  | header :: rows => rows.mapM (parse_employee_row header)

/-- Rat-shadow of "this numeric field holds a value a Python number
can hold": a finite decimal.  Every Python float (a dyadic rational)
and every int satisfies it; the bound k ≤ den loses no generality
because a denominator dividing a power of ten divides the
denominator-th power. -/
def decimalRep (q : Rat) : Prop := ∃ k : Nat, (q * 10 ^ k).den = 1 ∧ k ≤ q.den

/-! ## Theorems -/

/-! ### Lemmas about digit rendering -/

theorem natDigitsAux_congr : ∀ f1 : Nat, ∀ f2 n : Nat, n < f1 → n < f2 →
    natDigitsAux f1 n = natDigitsAux f2 n := by
  intro f1
  induction f1 with
  | zero => omega
  | succ g1 ih =>
    intro f2 n h1 h2
    match f2, h2 with
    | g2 + 1, _ =>
      show natDigitsAux (g1 + 1) n = natDigitsAux (g2 + 1) n
      unfold natDigitsAux
      split
      · rfl
      · have hlt : n / 10 < n := Nat.div_lt_self (by omega) (by omega)
        rw [ih g2 (n / 10) (by omega) (by omega)]

/-- Unfolding equation for natDigits, independent of fuel. -/
theorem natDigits_eq_rec (n : Nat) : natDigits n =
    if n < 10 then [digitChar n]
    else natDigits (n / 10) ++ [digitChar (n % 10)] := by
  show natDigitsAux (n + 1) n = _
  unfold natDigitsAux
  split
  · rfl
  · have hlt : n / 10 < n := Nat.div_lt_self (by omega) (by omega)
    rw [natDigitsAux_congr n (n / 10 + 1) (n / 10) (by omega) (by omega)]
    rfl

theorem natDigits_ne_nil (n : Nat) : natDigits n ≠ [] := by
  rw [natDigits_eq_rec]
  split <;> simp

theorem digitChar_isDigit (d : Nat) (hd : d < 10) : (digitChar d).isDigit = true := by
  revert hd
  revert d
  decide

theorem charVal_digitChar (d : Nat) (hd : d < 10) : charVal (digitChar d) = d := by
  revert hd
  revert d
  decide

theorem natDigits_all_digits (n : Nat) : ∀ c ∈ natDigits n, c.isDigit = true := by
  induction n using Nat.strong_induction_on with
  | _ n ih =>
    rw [natDigits_eq_rec]
    split
    · intro c hc
      simp only [List.mem_singleton] at hc
      subst hc
      exact digitChar_isDigit n (by omega)
    · intro c hc
      rcases List.mem_append.mp hc with h | h
      · exact ih (n / 10) (Nat.div_lt_self (by omega) (by omega)) c h
      · simp only [List.mem_singleton] at h
        subst h
        exact digitChar_isDigit (n % 10) (Nat.mod_lt _ (by omega))

/-- Folding the digit-value step over the digits of n starting from
accumulator a yields a * 10 ^ (number of digits) + n. -/
theorem foldl_natDigits (n : Nat) : ∀ a : Nat,
    List.foldl (fun acc c => acc * 10 + charVal c) a (natDigits n) =
      a * 10 ^ (natDigits n).length + n := by
  induction n using Nat.strong_induction_on with
  | _ n ih =>
    intro a
    rw [natDigits_eq_rec]
    split
    · have : charVal (digitChar n) = n := charVal_digitChar n (by omega)
      simp [List.foldl, this]
    · rw [List.foldl_append]
      rw [ih (n / 10) (Nat.div_lt_self (by omega) (by omega)) a]
      have hc : charVal (digitChar (n % 10)) = n % 10 :=
        charVal_digitChar (n % 10) (Nat.mod_lt _ (by omega))
      simp only [List.foldl, hc, List.length_append, List.length_singleton]
      rw [pow_succ]
      have := Nat.div_add_mod n 10
      ring_nf
      omega

/-- digitsVal is a left inverse of natDigits. -/
theorem digitsVal_natDigits (n : Nat) : digitsVal (natDigits n) = n := by
  unfold digitsVal
  rw [foldl_natDigits n 0]
  simp

/-- Leading zeros do not change the value of a digit list. -/
theorem digitsVal_padZeros (w : Nat) (cs : List Char) :
    digitsVal (padZeros w cs) = digitsVal cs := by
  unfold digitsVal padZeros
  rw [List.foldl_append]
  congr 1
  induction (w - cs.length) with
  | zero => rfl
  | succ k ih =>
    rw [List.replicate_succ, List.foldl_cons]
    simpa [charVal] using ih

/-- pad4 is injective: the padded string determines the number. -/
theorem pad4_injective : Function.Injective pad4 := by
  intro m n h
  have h2 : padZeros 4 (natDigits m) = padZeros 4 (natDigits n) := by
    have := congrArg String.data h
    simpa [pad4] using this
  have := congrArg digitsVal h2
  rwa [digitsVal_padZeros, digitsVal_padZeros, digitsVal_natDigits,
    digitsVal_natDigits] at this

/-- Identifiers of successive loop indices are distinct. -/
theorem empId_injective : Function.Injective (fun i : Nat => "EMP" ++ pad4 (i + 1)) := by
  intro a b h
  have hdata := congrArg String.data h
  simp only [String.data_append] at hdata
  have := List.append_cancel_left hdata
  have hp : pad4 (a + 1) = pad4 (b + 1) := String.ext this
  have := pad4_injective hp
  omega

/-! ### Claim C5 -/

/-- C5: for every non-negative integer n, generate_employees n succeeds
and returns exactly n employee records whose emp_id values are the
distinct sequential strings "EMP" ++ i zero-padded to 4 digits for i
from 1 to n; for n = 0 it returns the empty sequence. -/
theorem C5_generate_employees_ids (fmtDate : Nat → String) (rand : Nat → Draw) (n : Nat) :
    (generate_employees fmtDate rand n).length = n ∧
    (generate_employees fmtDate rand n).map Employee.emp_id =
      (List.range n).map (fun i => "EMP" ++ pad4 (i + 1)) ∧
    ((generate_employees fmtDate rand n).map Employee.emp_id).Nodup ∧
    (n = 0 → generate_employees fmtDate rand n = []) := by
  have hmap : (generate_employees fmtDate rand n).map Employee.emp_id =
      (List.range n).map (fun i => "EMP" ++ pad4 (i + 1)) := by
    simp only [generate_employees, List.map_map]
    rfl
  refine ⟨by simp [generate_employees], hmap, ?_, ?_⟩
  · rw [hmap]
    exact (List.nodup_range n).map empId_injective
  · intro h
    simp [generate_employees, h]

/-! ### Claim C6 -/

/-- C6: every record produced by generate_employees satisfies
salary ≥ 30000 (salary being max(base salary of its department plus a
variation in [-10000, 30000], 30000)) and 5.0 ≤ performance_score ≤ 10.0
with the score an exact multiple of one tenth, regardless of the
random draws. -/
theorem C6_generate_employees_bounds (fmtDate : Nat → String) (rand : Nat → Draw)
    (n : Nat) (e : Employee) (he : e ∈ generate_employees fmtDate rand n) :
    30000 ≤ e.salary ∧
    (∃ v : Int, -10000 ≤ v ∧ v ≤ 30000 ∧
      e.salary = ((max ((base_salaries.lookup e.department).getD 0 + v) 30000 : Int) : Rat)) ∧
    5 ≤ e.performance_score ∧ e.performance_score ≤ 10 ∧
    (∃ t : Nat, e.performance_score = (t : Rat) / 10) := by
  simp only [generate_employees, List.mem_map, List.mem_range] at he
  obtain ⟨i0, _, rfl⟩ := he
  dsimp only
  refine ⟨?_, ?_, ?_, ?_, ?_⟩
  · have h1 : (30000 : Int) ≤ max ((base_salaries.lookup (DEPARTMENTS.get (rand i0).dept)).getD 0
        + (-10000 + ((rand i0).variation : Int))) 30000 := le_max_right _ _
    exact_mod_cast h1
  · refine ⟨-10000 + ((rand i0).variation : Int), ?_, ?_, rfl⟩
    · have := (rand i0).variation.isLt
      omega
    · have := (rand i0).variation.isLt
      omega
  · have ht : (0 : Rat) ≤ ((rand i0).perfTenths : Nat) := by positivity
    rw [le_div_iff₀ (by norm_num)]
    push_cast
    linarith
  · have ht : (((rand i0).perfTenths : Nat) : Rat) ≤ 50 := by
      have := (rand i0).perfTenths.isLt
      exact_mod_cast Nat.le_of_lt_succ this
    rw [div_le_iff₀ (by norm_num)]
    push_cast
    linarith
  · exact ⟨50 + ((rand i0).perfTenths : Nat), by push_cast; ring⟩

/-- Witness for C6 at a concrete random source and batch size. -/
theorem C6_generate_employees_bounds_witness :
    (⟨"EMP0001", "Ahmed Khan", "Engineering", 80000, "", 5⟩ : Employee) ∈
      generate_employees (fun _ => "")
        (fun _ => ⟨⟨0, by decide⟩, ⟨0, by decide⟩, ⟨0, by decide⟩,
                   ⟨10000, by decide⟩, ⟨0, by decide⟩, ⟨0, by decide⟩⟩) 1 ∧
    30000 ≤ (⟨"EMP0001", "Ahmed Khan", "Engineering", 80000, "", 5⟩ : Employee).salary := by
  have hm : (⟨"EMP0001", "Ahmed Khan", "Engineering", 80000, "", 5⟩ : Employee) ∈
      generate_employees (fun _ => "")
        (fun _ => ⟨⟨0, by decide⟩, ⟨0, by decide⟩, ⟨0, by decide⟩,
                   ⟨10000, by decide⟩, ⟨0, by decide⟩, ⟨0, by decide⟩⟩) 1 := by
    have h1 : generate_employees (fun _ => "")
        (fun _ => ⟨⟨0, by decide⟩, ⟨0, by decide⟩, ⟨0, by decide⟩,
                   ⟨10000, by decide⟩, ⟨0, by decide⟩, ⟨0, by decide⟩⟩) 1 =
        [⟨"EMP0001", "Ahmed Khan", "Engineering", 80000, "", 5⟩] := by
      simp only [generate_employees, List.range_succ, List.range_zero, List.nil_append,
        List.map_cons, List.map_nil]
      refine congrArg (fun e => [e]) ?_
      refine congrArg₂ (fun (s : Rat) (p : Rat) =>
        ({ emp_id := "EMP0001", name := "Ahmed Khan", department := "Engineering",
           salary := s, joining_date := "", performance_score := p } : Employee)) ?_ ?_
      · norm_num [DEPARTMENTS, base_salaries]
      · norm_num
    rw [h1]
    exact List.mem_singleton.mpr rfl
  exact ⟨hm, (C6_generate_employees_bounds _ _ 1 _ hm).1⟩

/-! ### Department statistics lemmas -/

theorem addEmp_counts (emp : Employee) : ∀ m : List (String × DeptAcc),
    (∀ p ∈ m, 1 ≤ p.2.count) → ∀ p ∈ addEmp emp m, 1 ≤ p.2.count := by
  intro m
  induction m with
  | nil =>
    intro _ p hp
    simp only [addEmp, List.mem_singleton] at hp
    subst hp
    simp
  | cons hd tl ih =>
    intro hm p hp
    obtain ⟨d, a⟩ := hd
    simp only [addEmp] at hp
    split at hp
    · rcases List.mem_cons.mp hp with h | h
      · subst h
        show 1 ≤ a.count + 1
        omega
      · exact hm _ (List.mem_cons_of_mem _ h)
    · rcases List.mem_cons.mp hp with h | h
      · subst h
        exact hm _ (List.mem_cons_self _ _)
      · exact ih (fun q hq => hm q (List.mem_cons_of_mem _ hq)) p h

theorem foldl_addEmp_counts (employees : List Employee) :
    ∀ m : List (String × DeptAcc), (∀ p ∈ m, 1 ≤ p.2.count) →
    ∀ p ∈ employees.foldl (fun m e => addEmp e m) m, 1 ≤ p.2.count := by
  induction employees with
  | nil => intro m hm; simpa using hm
  | cons e es ih =>
    intro m hm
    rw [List.foldl_cons]
    exact ih _ (addEmp_counts e m hm)

theorem deptAverages_ok (p : String × DeptAcc) (hp : 1 ≤ p.2.count) :
    deptAverages p = .ok (p.1,
      { count := p.2.count, total_salary := p.2.total_salary,
        total_performance := p.2.total_performance, employees := p.2.employees,
        avg_salary := p.2.total_salary / (p.2.count : Rat),
        avg_performance := p.2.total_performance / (p.2.count : Rat) }) := by
  have hne : ((p.2.count : Nat) : Rat) ≠ 0 := by
    exact Nat.cast_ne_zero.mpr (by omega)
  simp [deptAverages, pyDiv, hne]
  rfl

theorem mapM_deptAverages_ok (m : List (String × DeptAcc))
    (hm : ∀ p ∈ m, 1 ≤ p.2.count) :
    ∃ stats : List (String × DeptStats),
      m.mapM deptAverages = .ok stats ∧
      ∀ q ∈ stats, 1 ≤ q.2.count ∧
        q.2.avg_salary = q.2.total_salary / (q.2.count : Rat) ∧
        q.2.avg_performance = q.2.total_performance / (q.2.count : Rat) := by
  induction m with
  | nil => exact ⟨[], rfl, by simp⟩
  | cons p rest ih =>
    obtain ⟨stats, hok, hall⟩ := ih (fun q hq => hm q (List.mem_cons_of_mem _ hq))
    have hp := hm p (List.mem_cons_self _ _)
    have hok2 : (p :: rest).mapM deptAverages = .ok ((p.1,
        { count := p.2.count, total_salary := p.2.total_salary,
          total_performance := p.2.total_performance, employees := p.2.employees,
          avg_salary := p.2.total_salary / (p.2.count : Rat),
          avg_performance := p.2.total_performance / (p.2.count : Rat) }) :: stats) := by
      rw [List.mapM_cons, deptAverages_ok p hp, hok]
      rfl
    refine ⟨_, hok2, ?_⟩
    intro q hq
    rcases List.mem_cons.mp hq with h | h
    · subst h
      exact ⟨hp, rfl, rfl⟩
    · exact hall q h

/-! ### Claim C7 -/

/-- C7: for every employee collection, every department group built by
get_department_statistics has count ≥ 1, so computing the averages
total_salary / count and total_performance / count never divides by
zero and the method returns normally. -/
theorem C7_department_groups_nonempty (employees : List Employee) :
    ∃ stats : List (String × DeptStats),
      get_department_statistics employees = .ok stats ∧
      ∀ q ∈ stats, 1 ≤ q.2.count ∧
        q.2.avg_salary = q.2.total_salary / (q.2.count : Rat) ∧
        q.2.avg_performance = q.2.total_performance / (q.2.count : Rat) := by
  have hcounts := foldl_addEmp_counts employees [] (by simp)
  exact mapM_deptAverages_ok _ hcounts

/-! ### Sorting lemmas -/

/-- Stability of the embedded sort, in filter form: the employees of
any fixed performance score appear in the sorted sequence exactly in
their source order. -/
theorem insertionSort_filter_score (employees : List Employee) (q : Rat) :
    (List.insertionSort scoreGE employees).filter
        (fun e => decide (e.performance_score = q)) =
      employees.filter (fun e => decide (e.performance_score = q)) := by
  set p : Employee → Bool := fun e => decide (e.performance_score = q) with hp
  set c := employees.filter p with hc
  have hmemq : ∀ a ∈ c, a.performance_score = q := by
    intro a ha
    have := List.of_mem_filter ha
    simpa [hp] using this
  have hpair : c.Pairwise scoreGE := by
    refine List.pairwise_of_forall_mem_list ?_
    intro a ha b hb
    show b.performance_score ≤ a.performance_score
    rw [hmemq a ha, hmemq b hb]
  have hsub : c.Sublist (List.insertionSort scoreGE employees) :=
    List.sublist_insertionSort hpair (List.filter_sublist employees)
  have hsub2 : c.Sublist ((List.insertionSort scoreGE employees).filter p) := by
    have := List.Sublist.filter p hsub
    rwa [hc, List.filter_filter, show (fun a => p a && p a) = p by
      funext a; cases p a <;> rfl] at this
  have hperm : ((List.insertionSort scoreGE employees).filter p).Perm c :=
    (List.perm_insertionSort scoreGE employees).filter p
  exact (List.Sublist.eq_of_length hsub2 hperm.length_eq.symm).symm

/-! ### Claim C2 -/

/-- C2: for every employee list and non-negative n, get_top_performers
returns the first n elements of the stable descending sort by
performance score: the result is the n-prefix of a permutation of the
input that is sorted descending (scoreGE) and preserves source order
on equal scores; n = 0 yields the empty sequence and n greater than
the length yields the whole sorted list. -/
theorem C2_get_top_performers (employees : List Employee) (n : Nat) :
    ∃ s : List Employee,
      s.Perm employees ∧
      List.Sorted scoreGE s ∧
      (∀ q : Rat, s.filter (fun e => decide (e.performance_score = q)) =
        employees.filter (fun e => decide (e.performance_score = q))) ∧
      get_top_performers employees (n : Int) = s.take n ∧
      (n = 0 → get_top_performers employees (n : Int) = []) ∧
      (employees.length < n → get_top_performers employees (n : Int) = s) := by
  refine ⟨List.insertionSort scoreGE employees,
    List.perm_insertionSort scoreGE employees,
    List.sorted_insertionSort scoreGE employees,
    fun q => insertionSort_filter_score employees q, ?_, ?_, ?_⟩
  · simp [get_top_performers, pySliceTo, Int.toNat_ofNat]
  · intro h
    subst h
    simp [get_top_performers, pySliceTo]
  · intro h
    have hlen : (List.insertionSort scoreGE employees).length ≤ n := by
      rw [List.length_insertionSort]
      omega
    simp [get_top_performers, pySliceTo, Int.toNat_ofNat,
      List.take_of_length_le hlen]

/-- Witness for C2 at a concrete list and n. -/
theorem C2_get_top_performers_witness :
    ∃ s : List Employee,
      s.Perm [⟨"EMP0001", "A B", "Sales", 40000, "2024-01-01", 6⟩,
              ⟨"EMP0002", "C D", "HR", 41000, "2024-01-02", 9⟩] ∧
      List.Sorted scoreGE s ∧
      (∀ q : Rat, s.filter (fun e => decide (e.performance_score = q)) =
        [⟨"EMP0001", "A B", "Sales", 40000, "2024-01-01", 6⟩,
         ⟨"EMP0002", "C D", "HR", 41000, "2024-01-02", 9⟩].filter
          (fun e => decide (e.performance_score = q))) ∧
      get_top_performers
        [⟨"EMP0001", "A B", "Sales", 40000, "2024-01-01", 6⟩,
         ⟨"EMP0002", "C D", "HR", 41000, "2024-01-02", 9⟩] ((1 : Nat) : Int) = s.take 1 ∧
      ((1 : Nat) = 0 → get_top_performers
        [⟨"EMP0001", "A B", "Sales", 40000, "2024-01-01", 6⟩,
         ⟨"EMP0002", "C D", "HR", 41000, "2024-01-02", 9⟩] ((1 : Nat) : Int) = []) ∧
      (([⟨"EMP0001", "A B", "Sales", 40000, "2024-01-01", 6⟩,
         ⟨"EMP0002", "C D", "HR", 41000, "2024-01-02", 9⟩] : List Employee).length < 1 →
        get_top_performers
        [⟨"EMP0001", "A B", "Sales", 40000, "2024-01-01", 6⟩,
         ⟨"EMP0002", "C D", "HR", 41000, "2024-01-02", 9⟩] ((1 : Nat) : Int) = s) :=
  C2_get_top_performers _ 1

/-! ### Claim C10 -/

/-- C10 counterexample: on the empty employee list and the negative
count -1, get_top_performers returns the entire sorted list, refuting
the clause that it never returns the full sorted list for negative n. -/
theorem C10_counterexample :
    (-1 : Int) < 0 ∧
    get_top_performers [] (-1) = List.insertionSort scoreGE [] := by
  constructor
  · decide
  · rfl

/-- C10 (amended): for every employee list and negative n,
get_top_performers does not raise and returns the prefix of the
descending-sorted list of length len + n (clamped at zero): for
-len < n < 0 this is a non-empty proper prefix, for n ≤ -len it is
empty, and for a NON-EMPTY list it is never the full sorted list
(the original claim fails only at the empty list, where the empty
result coincides with the full sorted list). -/
theorem C10_get_top_performers_neg (employees : List Employee) (n : Int)
    (hn : n < 0) :
    get_top_performers employees n =
      (List.insertionSort scoreGE employees).take
        ((employees.length : Int) + n).toNat ∧
    (-(employees.length : Int) < n →
      get_top_performers employees n ≠ [] ∧
      (get_top_performers employees n).length < employees.length) ∧
    (n ≤ -(employees.length : Int) → get_top_performers employees n = []) ∧
    (employees ≠ [] →
      get_top_performers employees n ≠ List.insertionSort scoreGE employees) := by
  have hneg : ¬ (0 : Int) ≤ n := by omega
  have htake : get_top_performers employees n =
      (List.insertionSort scoreGE employees).take
        ((employees.length : Int) + n).toNat := by
    simp [get_top_performers, pySliceTo, hneg]
  have hlen : (get_top_performers employees n).length =
      min ((employees.length : Int) + n).toNat employees.length := by
    rw [htake, List.length_take, List.length_insertionSort]
  refine ⟨htake, ?_, ?_, ?_⟩
  · intro hlt
    have h1 : 0 < ((employees.length : Int) + n).toNat := by omega
    have h2 : ((employees.length : Int) + n).toNat < employees.length := by omega
    constructor
    · intro hnil
      rw [hnil] at hlen
      simp at hlen
      omega
    · omega
  · intro hle
    have h0 : ((employees.length : Int) + n).toNat = 0 := by omega
    rw [htake, h0, List.take_zero]
  · intro hne
    have hpos : 0 < employees.length := List.length_pos.mpr hne
    intro heq
    have := congrArg List.length heq
    rw [hlen, List.length_insertionSort] at this
    omega

/-- Witness for C10 at a concrete list and negative n. -/
theorem C10_get_top_performers_neg_witness :
    get_top_performers
        [⟨"EMP0001", "A B", "Sales", 40000, "2024-01-01", 6⟩,
         ⟨"EMP0002", "C D", "HR", 41000, "2024-01-02", 9⟩] (-1) =
      (List.insertionSort scoreGE
        [⟨"EMP0001", "A B", "Sales", 40000, "2024-01-01", 6⟩,
         ⟨"EMP0002", "C D", "HR", 41000, "2024-01-02", 9⟩]).take 1 ∧
    ((-(2 : Int) < -1) →
      get_top_performers
        [⟨"EMP0001", "A B", "Sales", 40000, "2024-01-01", 6⟩,
         ⟨"EMP0002", "C D", "HR", 41000, "2024-01-02", 9⟩] (-1) ≠ [] ∧
      (get_top_performers
        [⟨"EMP0001", "A B", "Sales", 40000, "2024-01-01", 6⟩,
         ⟨"EMP0002", "C D", "HR", 41000, "2024-01-02", 9⟩] (-1)).length < 2) := by
  have h := C10_get_top_performers_neg
    [⟨"EMP0001", "A B", "Sales", 40000, "2024-01-01", 6⟩,
     ⟨"EMP0002", "C D", "HR", 41000, "2024-01-02", 9⟩] (-1) (by decide)
  exact ⟨h.1, fun hlt => h.2.1 (by exact_mod_cast hlt)⟩

/-! ### Report lemmas -/

theorem mapM_ok_of_forall {α β : Type} (f : α → Except PyErr β) (g : α → β) :
    ∀ l : List α, (∀ x ∈ l, f x = .ok (g x)) → l.mapM f = .ok (l.map g) := by
  intro l
  induction l with
  | nil => intro _; rfl
  | cons a t ih =>
    intro h
    rw [List.mapM_cons, h a (List.mem_cons_self _ _),
      ih (fun x hx => h x (List.mem_cons_of_mem _ hx))]
    rfl

theorem report_dist_line_ok (total : Nat) (range_name : String) (count : Nat)
    (h : total ≠ 0) :
    report_dist_line total range_name count =
      .ok (distLineStr total range_name count) := by
  have hne : ((total : Nat) : Rat) ≠ 0 := Nat.cast_ne_zero.mpr h
  simp [report_dist_line, distLineStr, pyDiv, hne, Except.bind]

theorem report_dist_lines_ok (employees : List Employee)
    (h : employees.length ≠ 0) :
    report_dist_lines employees =
      .ok ((get_salary_range_distribution employees).toList.map
        (fun p => distLineStr employees.length p.1 p.2)) :=
  mapM_ok_of_forall _ _ _ (fun p _ => report_dist_line_ok employees.length p.1 p.2 h)

theorem report_dept_lines_ok (employees : List Employee) :
    ∃ dls, report_dept_lines employees = .ok dls := by
  have hc := foldl_addEmp_counts employees [] (by simp)
  obtain ⟨stats, hok, -⟩ := mapM_deptAverages_ok _ hc
  have hstats : get_department_statistics employees = .ok stats := hok
  refine ⟨(List.insertionSort keyLE stats).flatMap (fun p =>
    ["\n" ++ p.1 ++ ":",
     "  Number of Employees: " ++ natStr p.2.count,
     "  Average Salary: $" ++ fmtComma 2 p.2.avg_salary,
     "  Average Performance Score: " ++ fmtFixed 2 p.2.avg_performance ++ "/10"]), ?_⟩
  rw [report_dept_lines, hstats]
  rfl

theorem median_salary_ok (employees : List Employee) (h : employees ≠ []) :
    ∃ q, median_salary employees = .ok q ∧
      q ∈ employees.map Employee.salary ∧
      ∀ l : List Rat, l.Perm (employees.map Employee.salary) →
        l.Sorted (fun a b : Rat => a ≤ b) →
        l[employees.length / 2]? = some q := by
  have hlen0 : employees.length ≠ 0 := by
    simpa [List.length_eq_zero] using h
  have hlenmap : (employees.map Employee.salary).length = employees.length :=
    List.length_map _ _
  have hlt : (employees.map Employee.salary).length / 2 <
      (List.insertionSort (fun a b : Rat => a ≤ b)
        (employees.map Employee.salary)).length := by
    rw [List.length_insertionSort, hlenmap]
    exact Nat.div_lt_self (by omega) (by omega)
  refine ⟨(List.insertionSort (fun a b : Rat => a ≤ b)
    (employees.map Employee.salary)).get
      ⟨(employees.map Employee.salary).length / 2, hlt⟩, ?_, ?_, ?_⟩
  · simp only [median_salary]
    rw [List.getElem?_eq_getElem hlt]
    rfl
  · have hmem := List.get_mem (List.insertionSort (fun a b : Rat => a ≤ b)
      (employees.map Employee.salary)) _ hlt
    exact (List.perm_insertionSort _ _).mem_iff.mp hmem
  · intro l hperm hsort
    have heq : l = List.insertionSort (fun a b : Rat => a ≤ b)
        (employees.map Employee.salary) := by
      refine List.eq_of_perm_of_sorted ?_ hsort
        (List.sorted_insertionSort _ _)
      exact hperm.trans (List.perm_insertionSort _ _).symm
    subst heq
    rw [← hlenmap]
    exact List.getElem?_eq_getElem hlt

theorem report_overall_lines_ok (employees : List Employee) (h : employees ≠ []) :
    ∃ q avg mn mx ap, median_salary employees = .ok q ∧
      report_overall_lines employees = .ok
        ["Average Salary (All Departments): $" ++ fmtComma 2 avg,
         "Median Salary: $" ++ fmtComma 2 q,
         "Salary Range: $" ++ fmtComma 2 mn ++ " - $" ++ fmtComma 2 mx,
         "Average Performance Score: " ++ fmtFixed 2 ap ++ "/10"] := by
  obtain ⟨e, es, rfl⟩ := List.exists_cons_of_ne_nil h
  obtain ⟨q, hq, -, -⟩ := median_salary_ok (e :: es) h
  have hlen : (((e :: es).map Employee.salary).length : Rat) ≠ 0 := by
    rw [List.length_map, List.length_cons]
    exact Nat.cast_ne_zero.mpr (Nat.succ_ne_zero _)
  have hlenp : (((e :: es).map Employee.performance_score).length : Rat) ≠ 0 := by
    rw [List.length_map, List.length_cons]
    exact Nat.cast_ne_zero.mpr (Nat.succ_ne_zero _)
  obtain ⟨mn, hmn⟩ : ∃ mn, ((e :: es).map Employee.salary).min? = some mn :=
    ⟨_, by rw [List.map_cons, List.min?_cons]⟩
  obtain ⟨mx, hmx⟩ : ∃ mx, ((e :: es).map Employee.salary).max? = some mx :=
    ⟨_, by rw [List.map_cons, List.max?_cons]⟩
  have hcomp : report_overall_lines (e :: es) = .ok
      ["Average Salary (All Departments): $" ++ fmtComma 2
         (((e :: es).map Employee.salary).sum /
           ((((e :: es).map Employee.salary).length : Nat) : Rat)),
       "Median Salary: $" ++ fmtComma 2 q,
       "Salary Range: $" ++ fmtComma 2 mn ++ " - $" ++ fmtComma 2 mx,
       "Average Performance Score: " ++ fmtFixed 2
         (((e :: es).map Employee.performance_score).sum /
           ((((e :: es).map Employee.performance_score).length : Nat) : Rat)) ++
         "/10"] := by
    rw [report_overall_lines]
    simp only [pyDiv, hlen, hlenp, if_false, hq, hmn, hmx, Except.bind, ite_false]
    rfl
  exact ⟨q, _, mn, mx, _, hq, hcomp⟩

theorem report_lines_ok (now : String) (employees : List Employee)
    (h : employees ≠ []) :
    ∃ lines, report_lines now employees = .ok lines ∧
      (∀ x ∈ (get_salary_range_distribution employees).toList.map
        (fun p => distLineStr employees.length p.1 p.2), x ∈ lines) ∧
      (∃ q, median_salary employees = .ok q ∧
        ("Median Salary: $" ++ fmtComma 2 q) ∈ lines) := by
  have hlen0 : employees.length ≠ 0 := by
    simpa [List.length_eq_zero] using h
  obtain ⟨dls, hdept⟩ := report_dept_lines_ok employees
  have hdist := report_dist_lines_ok employees hlen0
  obtain ⟨q, avg, mn, mx, ap, hq, hoverall⟩ := report_overall_lines_ok employees h
  have hcomp : report_lines now employees = .ok
      ([hr80, "EMPLOYEE DATA ANALYSIS REPORT", hr80,
        "Generated: " ++ now,
        "Total Employees Analyzed: " ++ natStr employees.length, ""] ++
       ["DEPARTMENT STATISTICS:", dash80] ++ dls ++ [""] ++
       ["TOP 10 PERFORMERS:", dash80] ++ report_top_lines employees ++ [""] ++
       ["SALARY DISTRIBUTION:", dash80] ++
       ((get_salary_range_distribution employees).toList.map
         (fun p => distLineStr employees.length p.1 p.2)) ++ [""] ++
       ["OVERALL STATISTICS:", dash80] ++
       ["Average Salary (All Departments): $" ++ fmtComma 2 avg,
        "Median Salary: $" ++ fmtComma 2 q,
        "Salary Range: $" ++ fmtComma 2 mn ++ " - $" ++ fmtComma 2 mx,
        "Average Performance Score: " ++ fmtFixed 2 ap ++ "/10"] ++
       ["", hr80, "End of Report", hr80]) := by
    rw [report_lines, hdept]
    simp only [Except.bind, hdist, hoverall]
    rfl
  refine ⟨_, hcomp, ?_, ⟨q, hq, ?_⟩⟩
  · intro x hx
    simp only [List.mem_append, List.mem_cons]
    tauto
  · simp only [List.mem_append, List.mem_cons]
    tauto

/-! ### Salary distribution lemmas -/

theorem foldl_bucketInc_fields (es : List Employee) : ∀ r : SalaryRanges,
    es.foldl bucketInc r =
      ⟨r.r0to50 + es.countP (fun e => decide (bucketOf e.salary = "0-50k")),
       r.r50to70 + es.countP (fun e => decide (bucketOf e.salary = "50k-70k")),
       r.r70to90 + es.countP (fun e => decide (bucketOf e.salary = "70k-90k")),
       r.r90to100 + es.countP (fun e => decide (bucketOf e.salary = "90k-100k")),
       r.r100plus + es.countP (fun e => decide (bucketOf e.salary = "100k+"))⟩ := by
  induction es with
  | nil =>
    intro r
    simp [List.countP_nil]
  | cons e es ih =>
    intro r
    rw [List.foldl_cons, ih (bucketInc r e)]
    simp only [List.countP_cons]
    unfold bucketInc
    by_cases h1 : e.salary < 50000
    · have hb : bucketOf e.salary = "0-50k" := by simp [bucketOf, h1]
      simp [h1, hb]
      omega
    · by_cases h2 : e.salary < 70000
      · have hb : bucketOf e.salary = "50k-70k" := by simp [bucketOf, h1, h2]
        simp [h1, h2, hb]
        omega
      · by_cases h3 : e.salary < 90000
        · have hb : bucketOf e.salary = "70k-90k" := by simp [bucketOf, h1, h2, h3]
          simp [h1, h2, h3, hb]
          omega
        · by_cases h4 : e.salary < 100000
          · have hb : bucketOf e.salary = "90k-100k" := by
              simp [bucketOf, h1, h2, h3, h4]
            simp [h1, h2, h3, h4, hb]
            omega
          · have hb : bucketOf e.salary = "100k+" := by
              simp [bucketOf, h1, h2, h3, h4]
            simp [h1, h2, h3, h4, hb]
            omega

/-- Each salary lands in exactly one bucket label. -/
theorem bucketOf_mem_labels (s : Rat) : bucketOf s ∈ bucketLabels := by
  unfold bucketOf bucketLabels
  split_ifs <;> simp

/-- One employee contributes exactly once across the five bucket counts. -/
theorem bucket_counts_sum (es : List Employee) :
    es.countP (fun e => decide (bucketOf e.salary = "0-50k")) +
    es.countP (fun e => decide (bucketOf e.salary = "50k-70k")) +
    es.countP (fun e => decide (bucketOf e.salary = "70k-90k")) +
    es.countP (fun e => decide (bucketOf e.salary = "90k-100k")) +
    es.countP (fun e => decide (bucketOf e.salary = "100k+")) = es.length := by
  induction es with
  | nil => simp
  | cons e es ih =>
    simp only [List.countP_cons, List.length_cons]
    have hmem := bucketOf_mem_labels e.salary
    unfold bucketLabels at hmem
    rcases List.mem_cons.mp hmem with h | hmem <;>
      [skip; rcases List.mem_cons.mp hmem with h | hmem] <;>
      [skip; skip; rcases List.mem_cons.mp hmem with h | hmem] <;>
      [skip; skip; skip; rcases List.mem_cons.mp hmem with h | hmem] <;>
      [skip; skip; skip; skip; rcases List.mem_cons.mp hmem with h | hmem]
    case _ => simp [h]; omega
    case _ => simp [h]; omega
    case _ => simp [h]; omega
    case _ => simp [h]; omega
    case _ => simp [h]; omega
    case _ => simp at hmem

/-- Items of the distribution dict: the five fixed labels in order,
each with the count of employees whose salary falls in that bucket. -/
theorem dist_toList (employees : List Employee) :
    (get_salary_range_distribution employees).toList =
      bucketLabels.map fun label =>
        (label, employees.countP (fun e => decide (bucketOf e.salary = label))) := by
  rw [get_salary_range_distribution, foldl_bucketInc_fields employees ⟨0, 0, 0, 0, 0⟩]
  simp [SalaryRanges.toList, bucketLabels]

/-- Length of the visual bar: for a nonnegative percentage, Python
int() truncation is the floor. -/
theorem dist_bar_length (pct : Rat) (hp : 0 ≤ pct) :
    (dist_bar pct).length = (⌊pct / 2⌋).toNat := by
  have h2 : ¬ pct / 2 < 0 := not_lt.mpr (div_nonneg hp (by norm_num))
  simp [dist_bar, charRepeat, pyInt, h2, String.length]

/-! ### Claim C4 -/

/-- C4: get_salary_range_distribution assigns each employee to exactly
one of the five buckets according to the ordered threshold function
bucketOf, always yields the five labels in their fixed order (with
zero-filled counts), and the five counts sum to the total employee
count. -/
theorem C4_salary_range_distribution (employees : List Employee) :
    ((get_salary_range_distribution employees).toList.map Prod.fst = bucketLabels) ∧
    ((get_salary_range_distribution employees).toList =
      bucketLabels.map fun label =>
        (label, employees.countP (fun e => decide (bucketOf e.salary = label)))) ∧
    (∀ e : Employee, bucketOf e.salary ∈ bucketLabels) ∧
    (((get_salary_range_distribution employees).toList.map Prod.snd).sum =
      employees.length) := by
  have hf := foldl_bucketInc_fields employees ⟨0, 0, 0, 0, 0⟩
  have hd : get_salary_range_distribution employees =
      ⟨employees.countP (fun e => decide (bucketOf e.salary = "0-50k")),
       employees.countP (fun e => decide (bucketOf e.salary = "50k-70k")),
       employees.countP (fun e => decide (bucketOf e.salary = "70k-90k")),
       employees.countP (fun e => decide (bucketOf e.salary = "90k-100k")),
       employees.countP (fun e => decide (bucketOf e.salary = "100k+"))⟩ := by
    rw [get_salary_range_distribution, hf]
    simp
  refine ⟨?_, ?_, fun e => bucketOf_mem_labels e.salary, ?_⟩
  · rw [hd]
    rfl
  · rw [hd]
    rfl
  · rw [hd]
    have := bucket_counts_sum employees
    simp only [SalaryRanges.toList, List.map_cons, List.map_nil, List.sum_cons,
      List.sum_nil]
    omega

/-! ### Claim C1 -/

/-- C1: generate_report raises ZeroDivisionError on the empty employee
collection (in the percentage computation of the Salary Distribution
section, the first division reached) and returns a report string
without raising on every non-empty collection. -/
theorem C1_generate_report_empty_raises :
    (∀ now, generate_report now [] = .error PyErr.zeroDivision) ∧
    (∀ now employees, employees ≠ [] →
      ∃ s, generate_report now employees = .ok s) := by
  constructor
  · intro now
    have hdept : report_dept_lines [] = .ok [] := rfl
    have hdist : report_dist_lines [] = .error PyErr.zeroDivision := by
      have hdiv : pyDiv ((0 : Nat) : Rat) ((0 : Nat) : Rat) =
          .error PyErr.zeroDivision := by
        simp [pyDiv]
      simp only [report_dist_lines, get_salary_range_distribution,
        List.foldl_nil, SalaryRanges.toList, List.length_nil,
        List.mapM_cons, report_dist_line, hdiv, Except.bind]
      rfl
    rw [generate_report, report_lines, hdept]
    simp only [Except.bind, hdist]
    rfl
  · intro now employees h
    obtain ⟨lines, hok, -, -⟩ := report_lines_ok now employees h
    exact ⟨_, by rw [generate_report, hok]; rfl⟩

/-- Witness for C1 at a concrete timestamp and a concrete one-element
collection. -/
theorem C1_generate_report_witness :
    generate_report "2026-01-15 10:00:00" [] = .error PyErr.zeroDivision ∧
    (([⟨"EMP0001", "Ahmed Khan", "Engineering", 80000, "2024-05-01", 7⟩] :
        List Employee) ≠ [] ∧
      ∃ s, generate_report "2026-01-15 10:00:00"
        [⟨"EMP0001", "Ahmed Khan", "Engineering", 80000, "2024-05-01", 7⟩] = .ok s) :=
  ⟨C1_generate_report_empty_raises.1 _,
   List.cons_ne_nil _ _,
   C1_generate_report_empty_raises.2 _ _ (List.cons_ne_nil _ _)⟩

/-! ### Claim C3 -/

/-- C3: for every non-empty employee collection the median salary
reported by generate_report (the def median_salary it uses) is the
element at index floor(total/2) of any ascending-sorted arrangement of
the salary list (the low-median), and it appears on the report's
"Median Salary" line. -/
theorem C3_report_median (employees : List Employee) (h : employees ≠ []) :
    ∃ q, median_salary employees = .ok q ∧
      q ∈ employees.map Employee.salary ∧
      (∀ l : List Rat, l.Perm (employees.map Employee.salary) →
        l.Sorted (fun a b : Rat => a ≤ b) →
        l[employees.length / 2]? = some q) ∧
      (∀ now, ∃ lines, report_lines now employees = .ok lines ∧
        ("Median Salary: $" ++ fmtComma 2 q) ∈ lines) := by
  obtain ⟨q, hq, hmem, huniq⟩ := median_salary_ok employees h
  refine ⟨q, hq, hmem, huniq, ?_⟩
  intro now
  obtain ⟨lines, hok, -, q2, hq2, hline⟩ := report_lines_ok now employees h
  have : q2 = q := by
    rw [hq] at hq2
    exact (Except.ok.injEq _ _ ▸ hq2).symm
  subst this
  exact ⟨lines, hok, hline⟩

/-- Witness for C3: three employees with salaries 90000, 50000, 70000
(supplied unsorted); the reported median is 70000, the element at
index 1 of the ascending-sorted salary list. -/
theorem C3_report_median_witness :
    (([⟨"EMP0001", "A B", "Sales", 90000, "2024-01-01", 6⟩,
       ⟨"EMP0002", "C D", "HR", 50000, "2024-01-02", 7⟩,
       ⟨"EMP0003", "E F", "Finance", 70000, "2024-01-03", 8⟩] :
        List Employee) ≠ []) ∧
    median_salary
      [⟨"EMP0001", "A B", "Sales", 90000, "2024-01-01", 6⟩,
       ⟨"EMP0002", "C D", "HR", 50000, "2024-01-02", 7⟩,
       ⟨"EMP0003", "E F", "Finance", 70000, "2024-01-03", 8⟩] = .ok 70000 ∧
    (∃ q, median_salary
        [⟨"EMP0001", "A B", "Sales", 90000, "2024-01-01", 6⟩,
         ⟨"EMP0002", "C D", "HR", 50000, "2024-01-02", 7⟩,
         ⟨"EMP0003", "E F", "Finance", 70000, "2024-01-03", 8⟩] = .ok q ∧
      q ∈ ([⟨"EMP0001", "A B", "Sales", 90000, "2024-01-01", 6⟩,
            ⟨"EMP0002", "C D", "HR", 50000, "2024-01-02", 7⟩,
            ⟨"EMP0003", "E F", "Finance", 70000, "2024-01-03", 8⟩] :
          List Employee).map Employee.salary ∧
      (∀ l : List Rat, l.Perm (([⟨"EMP0001", "A B", "Sales", 90000, "2024-01-01", 6⟩,
            ⟨"EMP0002", "C D", "HR", 50000, "2024-01-02", 7⟩,
            ⟨"EMP0003", "E F", "Finance", 70000, "2024-01-03", 8⟩] :
          List Employee).map Employee.salary) →
        l.Sorted (fun a b : Rat => a ≤ b) →
        l[(3 : Nat) / 2]? = some q) ∧
      (∀ now, ∃ lines, report_lines now
          [⟨"EMP0001", "A B", "Sales", 90000, "2024-01-01", 6⟩,
           ⟨"EMP0002", "C D", "HR", 50000, "2024-01-02", 7⟩,
           ⟨"EMP0003", "E F", "Finance", 70000, "2024-01-03", 8⟩] = .ok lines ∧
        ("Median Salary: $" ++ fmtComma 2 q) ∈ lines)) := by
  refine ⟨List.cons_ne_nil _ _, ?_, C3_report_median _ (List.cons_ne_nil _ _)⟩
  norm_num [median_salary, List.insertionSort, List.orderedInsert]

/-! ### Claim C9 -/

/-- C9: in the Salary Distribution section, for every non-empty
collection and every bucket, the line ends in a visual bar whose
length in characters is floor(percentage / 2) with
percentage = count / total * 100; for a single-employee collection
the bucket holding that employee has percentage 100.0 and a bar of
exactly 50 characters. -/
theorem C9_salary_distribution_bar (employees : List Employee) (h : employees ≠ []) :
    (∀ label count,
      (label, count) ∈ (get_salary_range_distribution employees).toList →
      ∃ line, report_dist_line employees.length label count = .ok line ∧
        ∃ pre, line = pre ++
          dist_bar ((count : Rat) / (employees.length : Rat) * 100) ∧
        (dist_bar ((count : Rat) / (employees.length : Rat) * 100)).length =
          (⌊((count : Rat) / (employees.length : Rat) * 100) / 2⌋).toNat) ∧
    (∀ e : Employee, employees = [e] →
      (bucketOf e.salary, 1) ∈ (get_salary_range_distribution employees).toList ∧
      ((1 : Rat) / ((employees.length : Nat) : Rat) * 100) = 100 ∧
      (dist_bar 100).length = 50) := by
  constructor
  · intro label count hmem
    have hlen0 : employees.length ≠ 0 := by
      simpa [List.length_eq_zero] using h
    have hp : (0 : Rat) ≤ (count : Rat) / (employees.length : Rat) * 100 := by
      positivity
    exact ⟨distLineStr employees.length label count,
      report_dist_line_ok _ _ _ hlen0,
      padLeftStr 12 label ++ ": " ++ padRightStr 3 (natStr count) ++
        " employees (" ++ padRightStr 5
          (fmtFixed 1 ((count : Rat) / (employees.length : Rat) * 100)) ++ "%) ",
      rfl, dist_bar_length _ hp⟩
  · intro e he
    subst he
    refine ⟨?_, ?_, ?_⟩
    · rw [dist_toList]
      refine List.mem_map.mpr ⟨bucketOf e.salary, bucketOf_mem_labels e.salary, ?_⟩
      simp [List.countP_cons]
    · norm_num
    · rw [dist_bar_length 100 (by norm_num)]
      norm_num
      decide

/-- Witness for C9 at a concrete one-employee collection whose salary
falls in the first bucket. -/
theorem C9_salary_distribution_bar_witness :
    (([⟨"EMP0001", "A B", "Sales", 40000, "2024-01-01", 6⟩] : List Employee) ≠ []) ∧
    ((bucketOf (40000 : Rat), 1) ∈
      (get_salary_range_distribution
        [⟨"EMP0001", "A B", "Sales", 40000, "2024-01-01", 6⟩]).toList ∧
     ((1 : Rat) / ((([⟨"EMP0001", "A B", "Sales", 40000, "2024-01-01", 6⟩] :
        List Employee).length : Nat) : Rat) * 100) = 100 ∧
     (dist_bar 100).length = 50) :=
  ⟨List.cons_ne_nil _ _,
   (C9_salary_distribution_bar _ (List.cons_ne_nil _ _)).2 _ rfl⟩

/-! ### Number parsing and rendering lemmas -/

theorem takeWhile_append_all (p : Char → Bool) (l1 l2 : List Char)
    (h : ∀ c ∈ l1, p c = true) :
    (l1 ++ l2).takeWhile p = l1 ++ l2.takeWhile p := by
  induction l1 with
  | nil => simp
  | cons c cs ih =>
    rw [List.cons_append, List.takeWhile_cons,
      h c (List.mem_cons_self _ _)]
    rw [ih (fun x hx => h x (List.mem_cons_of_mem _ hx))]
    simp

theorem dropWhile_append_all (p : Char → Bool) (l1 l2 : List Char)
    (h : ∀ c ∈ l1, p c = true) :
    (l1 ++ l2).dropWhile p = l2.dropWhile p := by
  induction l1 with
  | nil => simp
  | cons c cs ih =>
    rw [List.cons_append, List.dropWhile_cons,
      h c (List.mem_cons_self _ _)]
    simp only [ite_true]
    exact ih (fun x hx => h x (List.mem_cons_of_mem _ hx))

theorem natDigits_length_le : ∀ n k : Nat, 1 ≤ k → n < 10 ^ k →
    (natDigits n).length ≤ k := by
  intro n
  induction n using Nat.strong_induction_on with
  | _ n ih =>
    intro k hk hn
    rw [natDigits_eq_rec]
    split
    · simpa using hk
    · rename_i hge
      have hk2 : 2 ≤ k := by
        by_contra hcon
        have : k = 1 := by omega
        subst this
        simp at hn
        omega
      have hdiv : n / 10 < 10 ^ (k - 1) := by
        rw [Nat.div_lt_iff_lt_mul (by omega)]
        calc n < 10 ^ k := hn
        _ = 10 ^ (k - 1) * 10 := by
          rw [← pow_succ]
          congr 1
          omega
      have := ih (n / 10) (Nat.div_lt_self (by omega) (by omega))
        (k - 1) (by omega) hdiv
      simp only [List.length_append, List.length_singleton]
      omega

theorem parseUnsignedFloat_digits (cs : List Char)
    (hcs : ∀ c ∈ cs, c.isDigit = true) (hne : cs ≠ []) :
    parseUnsignedFloat cs = some ((digitsVal cs : Nat) : Rat) := by
  have htake : cs.takeWhile (fun c => c.isDigit) = cs := by
    have := takeWhile_append_all (fun c => c.isDigit) cs [] hcs
    simpa using this
  have hdrop : cs.dropWhile (fun c => c.isDigit) = [] := by
    have := dropWhile_append_all (fun c => c.isDigit) cs [] hcs
    simpa using this
  rw [parseUnsignedFloat]
  simp only [htake, hdrop]
  rw [if_neg (by simpa [List.isEmpty_iff] using hne)]

theorem parseUnsignedFloat_point (ip fp : List Char)
    (hip : ∀ c ∈ ip, c.isDigit = true) (hfp : ∀ c ∈ fp, c.isDigit = true)
    (hne : ip ≠ []) :
    parseUnsignedFloat (ip ++ '.' :: fp) =
      some (((digitsVal ip : Nat) : Rat) +
        ((digitsVal fp : Nat) : Rat) / 10 ^ fp.length) := by
  have htake : (ip ++ '.' :: fp).takeWhile (fun c => c.isDigit) = ip := by
    rw [takeWhile_append_all _ _ _ hip, List.takeWhile_cons]
    simp
  have hdrop : (ip ++ '.' :: fp).dropWhile (fun c => c.isDigit) = '.' :: fp := by
    rw [dropWhile_append_all _ _ _ hip, List.dropWhile_cons]
    simp
  rw [parseUnsignedFloat]
  simp only [htake, hdrop]
  rw [if_pos]
  simp only [Bool.and_eq_true, List.all_eq_true, Bool.not_eq_true']
  constructor
  · exact hfp
  · simp [List.isEmpty_iff, hne]

theorem isDigit_ne_minus {c : Char} (h : c.isDigit = true) : c ≠ '-' := by
  intro hc
  subst hc
  simp [Char.isDigit] at h

theorem parseFloat_mk_digits (cs : List Char)
    (hcs : ∀ c ∈ cs, c.isDigit = true) (hne : cs ≠ []) :
    parseFloat (String.mk cs) = some ((digitsVal cs : Nat) : Rat) := by
  have hhead : ¬ (String.mk cs).data.head? = some '-' := by
    match cs, hne with
    | c :: cs2, _ =>
      have hd := hcs c (List.mem_cons_self _ _)
      simp only [List.head?_cons, Option.some.injEq]
      exact isDigit_ne_minus hd
  rw [parseFloat, if_neg hhead]
  exact parseUnsignedFloat_digits cs hcs hne

theorem parseFloat_mk_point (ip fp : List Char)
    (hip : ∀ c ∈ ip, c.isDigit = true) (hfp : ∀ c ∈ fp, c.isDigit = true)
    (hne : ip ≠ []) :
    parseFloat (String.mk (ip ++ '.' :: fp)) =
      some (((digitsVal ip : Nat) : Rat) +
        ((digitsVal fp : Nat) : Rat) / 10 ^ fp.length) := by
  have hhead : ¬ (String.mk (ip ++ '.' :: fp)).data.head? = some '-' := by
    match ip, hne with
    | c :: ip2, _ =>
      have hd := hip c (List.mem_cons_self _ _)
      simp only [List.cons_append, List.head?_cons, Option.some.injEq]
      exact isDigit_ne_minus hd
  rw [parseFloat, if_neg hhead]
  exact parseUnsignedFloat_point ip fp hip hfp hne

theorem parseFloat_mk_minus (cs : List Char) (v : Rat)
    (h : parseUnsignedFloat cs = some v) :
    parseFloat (String.mk ('-' :: cs)) = some (-v) := by
  rw [parseFloat, if_pos (by simp)]
  show (parseUnsignedFloat cs).map _ = _
  rw [h]
  rfl

theorem padZeros_all_digits (k : Nat) (cs : List Char)
    (h : ∀ c ∈ cs, c.isDigit = true) : ∀ c ∈ padZeros k cs, c.isDigit = true := by
  intro c hc
  rcases List.mem_append.mp hc with hmem | hmem
  · have := List.eq_of_mem_replicate hmem
    subst this
    decide
  · exact h c hmem

theorem padZeros_length (k : Nat) (cs : List Char) (h : cs.length ≤ k) :
    (padZeros k cs).length = k := by
  simp [padZeros]
  omega

theorem decExp_spec (q : Rat) (hq : decimalRep q) :
    ∃ k, decExp q = some k ∧ (q * 10 ^ k).den = 1 := by
  obtain ⟨k0, h1, h2⟩ := hq
  have hsome : (decExp q).isSome = true := by
    rw [decExp, List.find?_isSome]
    exact ⟨k0, List.mem_range.mpr (by omega), by simpa using h1⟩
  obtain ⟨k, hk⟩ := Option.isSome_iff_exists.mp hsome
  refine ⟨k, hk, ?_⟩
  rw [decExp] at hk
  have := List.find?_some hk
  simpa using this

theorem rat_div_pow_eq (a k : Nat) :
    ((a / 10 ^ k : Nat) : Rat) + ((a % 10 ^ k : Nat) : Rat) / 10 ^ k =
      (a : Rat) / 10 ^ k := by
  have h2 : (a / 10 ^ k) * 10 ^ k + a % 10 ^ k = a := by
    have h := Nat.div_add_mod a (10 ^ k)
    rw [Nat.mul_comm] at h
    exact h
  have hne : ((10 : Rat) ^ k) ≠ 0 := by positivity
  field_simp
  exact_mod_cast h2

/-- Python float() is a left inverse of str() on decimal-representable
numbers: the round trip through the CSV text is numerically exact. -/
theorem parseFloat_renderNum (q : Rat) (hq : decimalRep q) :
    parseFloat (renderNum q) = some q := by
  obtain ⟨k, hk, hden⟩ := decExp_spec q hq
  have hqm : ((q * 10 ^ k).num : Rat) = q * 10 ^ k := by
    conv_rhs => rw [← Rat.num_div_den (q * 10 ^ k)]
    rw [hden]
    simp
  have hpow : ((10 : Rat) ^ k) ≠ 0 := by positivity
  have hq10 : q = ((q * 10 ^ k).num : Rat) / 10 ^ k := by
    rw [hqm]
    field_simp
  rw [renderNum, hk]
  dsimp only
  set m := (q * 10 ^ k).num with hm
  set a := m.natAbs with ha
  have hmod_lt : a % 10 ^ k < 10 ^ k := Nat.mod_lt _ (by positivity)
  by_cases hk0 : k = 0
  · subst hk0
    rw [if_pos rfl]
    by_cases hneg : m < 0
    · rw [if_pos hneg]
      have hstr : "-" ++ natStr a = String.mk ('-' :: natDigits a) := rfl
      rw [hstr, parseFloat_mk_minus _ _
        (parseUnsignedFloat_digits _ (natDigits_all_digits a) (natDigits_ne_nil a))]
      rw [digitsVal_natDigits]
      congr 1
      have hcast : ((a : Nat) : Rat) = -((m : Rat)) := by
        rw [ha, Int.cast_natAbs, abs_of_neg hneg]
        push_cast
        ring
      rw [hq10]
      simp only [pow_zero, div_one, hcast]
      ring
    · rw [if_neg hneg]
      have hstr : ("" : String) ++ natStr a = String.mk (natDigits a) := rfl
      rw [hstr, parseFloat_mk_digits _ (natDigits_all_digits a) (natDigits_ne_nil a)]
      rw [digitsVal_natDigits]
      congr 1
      have hcast : ((a : Nat) : Rat) = ((m : Rat)) := by
        rw [ha, Int.cast_natAbs, abs_of_nonneg (not_lt.mp hneg)]
      rw [hq10]
      simp only [pow_zero, div_one, hcast]
  · rw [if_neg hk0]
    have hk1 : 1 ≤ k := by omega
    have hlen : (natDigits (a % 10 ^ k)).length ≤ k :=
      natDigits_length_le _ k hk1 hmod_lt
    have hfplen : (padZeros k (natDigits (a % 10 ^ k))).length = k :=
      padZeros_length _ _ hlen
    by_cases hneg : m < 0
    · rw [if_pos hneg]
      have hstr : "-" ++ natStr (a / 10 ^ k) ++ "." ++
          String.mk (padZeros k (natDigits (a % 10 ^ k))) =
          String.mk ('-' :: (natDigits (a / 10 ^ k) ++ '.' ::
            padZeros k (natDigits (a % 10 ^ k)))) := by
        apply String.ext
        simp [String.data_append, natStr]
      rw [hstr, parseFloat_mk_minus _ _
        (parseUnsignedFloat_point _ _ (natDigits_all_digits _)
          (padZeros_all_digits _ _ (natDigits_all_digits _)) (natDigits_ne_nil _))]
      rw [digitsVal_natDigits, digitsVal_padZeros, digitsVal_natDigits, hfplen,
        rat_div_pow_eq]
      congr 1
      have hcast : ((a : Nat) : Rat) = -((m : Rat)) := by
        rw [ha, Int.cast_natAbs, abs_of_neg hneg]
        push_cast
        ring
      rw [hq10, hcast]
      ring
    · rw [if_neg hneg]
      have hstr : ("" : String) ++ natStr (a / 10 ^ k) ++ "." ++
          String.mk (padZeros k (natDigits (a % 10 ^ k))) =
          String.mk (natDigits (a / 10 ^ k) ++ '.' ::
            padZeros k (natDigits (a % 10 ^ k))) := by
        apply String.ext
        simp [String.data_append, natStr]
      rw [hstr, parseFloat_mk_point _ _ (natDigits_all_digits _)
          (padZeros_all_digits _ _ (natDigits_all_digits _)) (natDigits_ne_nil _)]
      rw [digitsVal_natDigits, digitsVal_padZeros, digitsVal_natDigits, hfplen,
        rat_div_pow_eq]
      congr 1
      have hcast : ((a : Nat) : Rat) = ((m : Rat)) := by
        rw [ha, Int.cast_natAbs, abs_of_nonneg (not_lt.mp hneg)]
      rw [hq10, hcast]

/-! ### CSV writer and reader lemmas -/

theorem csvScan_plain (cs : List Char)
    (h : ∀ c ∈ cs, ¬(c = ',' ∨ c = '"' ∨ c = '\r' ∨ c = '\n')) :
    ∀ field row rest, csvScan false field row (cs ++ rest) =
      csvScan false (cs.reverse ++ field) row rest := by
  induction cs with
  | nil => intro field row rest; simp
  | cons c cs2 ih =>
    intro field row rest
    have hc := h c (List.mem_cons_self _ _)
    push_neg at hc
    obtain ⟨h1, h2, h3, h4⟩ := hc
    rw [List.cons_append]
    rw [show csvScan false field row (c :: (cs2 ++ rest)) =
      csvScan false (c :: field) row (cs2 ++ rest) by
        simp [csvScan, h1, h2, h3, h4]]
    rw [ih (fun x hx => h x (List.mem_cons_of_mem _ hx))]
    simp

theorem csvScan_quoted (cs : List Char) :
    ∀ field row d rest, d ≠ '"' →
    csvScan true field row (csvEscapeChars cs ++ '"' :: d :: rest) =
      csvScan false (cs.reverse ++ field) row (d :: rest) := by
  induction cs with
  | nil =>
    intro field row d rest hd
    show csvScan true field row ('"' :: d :: rest) = _
    simp [csvScan, hd]
  | cons c cs2 ih =>
    intro field row d rest hd
    by_cases hc : c = '"'
    · subst hc
      rw [show csvEscapeChars ('"' :: cs2) = '"' :: '"' :: csvEscapeChars cs2 from rfl]
      rw [List.cons_append, List.cons_append]
      rw [show csvScan true field row ('"' :: '"' ::
          (csvEscapeChars cs2 ++ '"' :: d :: rest)) =
        csvScan true ('"' :: field) row (csvEscapeChars cs2 ++ '"' :: d :: rest)
        from rfl]
      rw [ih ('"' :: field) row d rest hd]
      simp
    · rw [show csvEscapeChars (c :: cs2) = c :: csvEscapeChars cs2 by
        simp [csvEscapeChars, hc]]
      rw [List.cons_append]
      rw [show csvScan true field row (c ::
          (csvEscapeChars cs2 ++ '"' :: d :: rest)) =
        csvScan true (c :: field) row (csvEscapeChars cs2 ++ '"' :: d :: rest) by
          simp [csvScan, hc]]
      rw [ih (c :: field) row d rest hd]
      simp

theorem csvNeedsQuote_false_plain (s : String) (hq : csvNeedsQuote s = false) :
    ∀ c ∈ s.data, ¬(c = ',' ∨ c = '"' ∨ c = '\r' ∨ c = '\n') := by
  intro c hc
  simp only [csvNeedsQuote, List.any_eq_false] at hq
  have := hq c hc
  simp at this
  tauto

theorem csvScan_field_comma (s : String) (row : List String) (rest : List Char) :
    csvScan false [] row ((csvField s).data ++ ',' :: rest) =
      csvScan false [] (s :: row) rest := by
  by_cases hq : csvNeedsQuote s
  · rw [show (csvField s).data = '"' :: (csvEscapeChars s.data ++ ['"']) by
      simp [csvField, hq, String.data_append]]
    rw [show ('"' :: (csvEscapeChars s.data ++ ['"'])) ++ ',' :: rest =
      '"' :: (csvEscapeChars s.data ++ '"' :: ',' :: rest) by simp]
    rw [show csvScan false [] row ('"' ::
        (csvEscapeChars s.data ++ '"' :: ',' :: rest)) =
      csvScan true [] row (csvEscapeChars s.data ++ '"' :: ',' :: rest) from rfl]
    rw [csvScan_quoted s.data [] row ',' rest (by decide)]
    rw [List.append_nil]
    rw [show csvScan false s.data.reverse row (',' :: rest) =
      csvScan false [] (String.mk s.data.reverse.reverse :: row) rest from rfl]
    simp
  · rw [show csvField s = s by simp [csvField, hq]]
    rw [csvScan_plain s.data (csvNeedsQuote_false_plain s (by simpa using hq))]
    rw [List.append_nil]
    rw [show csvScan false s.data.reverse row (',' :: rest) =
      csvScan false [] (String.mk s.data.reverse.reverse :: row) rest from rfl]
    simp

theorem csvScan_field_crlf (s : String) (row : List String) (rest : List Char) :
    csvScan false [] row ((csvField s).data ++ '\r' :: '\n' :: rest) =
      (String.mk s.data :: row).reverse :: csvScan false [] [] rest := by
  by_cases hq : csvNeedsQuote s
  · rw [show (csvField s).data = '"' :: (csvEscapeChars s.data ++ ['"']) by
      simp [csvField, hq, String.data_append]]
    rw [show ('"' :: (csvEscapeChars s.data ++ ['"'])) ++ '\r' :: '\n' :: rest =
      '"' :: (csvEscapeChars s.data ++ '"' :: '\r' :: '\n' :: rest) by simp]
    rw [show csvScan false [] row ('"' ::
        (csvEscapeChars s.data ++ '"' :: '\r' :: '\n' :: rest)) =
      csvScan true [] row (csvEscapeChars s.data ++ '"' :: '\r' :: '\n' :: rest)
      from rfl]
    rw [csvScan_quoted s.data [] row '\r' ('\n' :: rest) (by decide)]
    rw [List.append_nil]
    rw [show csvScan false s.data.reverse row ('\r' :: '\n' :: rest) =
      (String.mk s.data.reverse.reverse :: row).reverse ::
        csvScan false [] [] rest from rfl]
    simp
  · rw [show csvField s = s by simp [csvField, hq]]
    rw [csvScan_plain s.data (csvNeedsQuote_false_plain s (by simpa using hq))]
    rw [List.append_nil]
    rw [show csvScan false s.data.reverse row ('\r' :: '\n' :: rest) =
      (String.mk s.data.reverse.reverse :: row).reverse ::
        csvScan false [] [] rest from rfl]
    simp

theorem csvScan_row (fields : List String) (hne : fields ≠ []) :
    ∀ row rest, csvScan false [] row ((csvRow fields).data ++ '\r' :: '\n' :: rest) =
      (row.reverse ++ fields.map (fun s => String.mk s.data)) ::
        csvScan false [] [] rest := by
  induction fields with
  | nil => exact absurd rfl hne
  | cons f t ih =>
    intro row rest
    match t with
    | [] =>
      rw [show csvRow [f] = csvField f from rfl]
      rw [csvScan_field_crlf]
      simp
    | g :: t2 =>
      rw [show csvRow (f :: g :: t2) = csvField f ++ "," ++ csvRow (g :: t2)
        from rfl]
      rw [String.data_append, String.data_append]
      rw [show ("," : String).data = [','] from rfl]
      rw [List.append_assoc, List.append_assoc]
      rw [show (([','] : List Char) ++ ((csvRow (g :: t2)).data ++
        '\r' :: '\n' :: rest)) = ',' :: ((csvRow (g :: t2)).data ++
        '\r' :: '\n' :: rest) from rfl]
      rw [csvScan_field_comma]
      rw [ih (List.cons_ne_nil _ _) (f :: row) rest]
      simp

theorem csvScan_rows (rows : List (List String)) (h : ∀ r ∈ rows, r ≠ []) :
    csvScan false [] []
      (rows.foldr (fun r acc => csvRow r ++ "\r\n" ++ acc) "").data =
      rows.map (fun r => r.map (fun s => String.mk s.data)) := by
  induction rows with
  | nil => rfl
  | cons r rs ih =>
    rw [List.foldr_cons, String.data_append, String.data_append]
    rw [show ("\r\n" : String).data = ['\r', '\n'] from rfl]
    rw [List.append_assoc]
    rw [show ((['\r', '\n'] : List Char) ++
      (rs.foldr (fun r acc => csvRow r ++ "\r\n" ++ acc) "").data) =
      '\r' :: '\n' :: (rs.foldr (fun r acc => csvRow r ++ "\r\n" ++ acc) "").data
      from rfl]
    rw [csvScan_row r (h r (List.mem_cons_self _ _))]
    rw [ih (fun x hx => h x (List.mem_cons_of_mem _ hx))]
    simp

theorem map_mk_data (r : List String) : r.map (fun s => String.mk s.data) = r := by
  induction r with
  | nil => rfl
  | cons s t ih =>
    rw [List.map_cons, ih]

/-- Parsing the saved file recovers the header and one row per
employee. -/
theorem csvParse_save_to_csv (employees : List Employee) :
    csvParse (save_to_csv employees) =
      fieldnames :: employees.map Employee.toRow := by
  have hne : ∀ r ∈ fieldnames :: employees.map Employee.toRow, r ≠ [] := by
    intro r hr
    rcases List.mem_cons.mp hr with h | h
    · subst h
      simp [fieldnames]
    · obtain ⟨e, -, rfl⟩ := List.mem_map.mp h
      simp [Employee.toRow]
  rw [csvParse, save_to_csv, csvScan_rows _ hne,
    List.map_congr_left (fun r _ => map_mk_data r)]
  exact List.map_id _

/-- Loading the row written for an employee rebuilds the employee,
field for field, when the two numeric strings parse back exactly. -/
theorem parse_employee_row_toRow (e : Employee)
    (hs : parseFloat (renderNum e.salary) = some e.salary)
    (hp : parseFloat (renderNum e.performance_score) = some e.performance_score) :
    parse_employee_row fieldnames e.toRow = .ok e := by
  simp only [parse_employee_row,
    show rowLookup fieldnames e.toRow "emp_id" = some e.emp_id from rfl,
    show rowLookup fieldnames e.toRow "name" = some e.name from rfl,
    show rowLookup fieldnames e.toRow "department" = some e.department from rfl,
    show rowLookup fieldnames e.toRow "salary" = some (renderNum e.salary) from rfl,
    show rowLookup fieldnames e.toRow "joining_date" = some e.joining_date from rfl,
    show rowLookup fieldnames e.toRow "performance_score" =
      some (renderNum e.performance_score) from rfl,
    hs, hp]
  rfl

theorem mapM_parse_toRow (es : List Employee)
    (h : ∀ e ∈ es, parse_employee_row fieldnames e.toRow = .ok e) :
    (es.map Employee.toRow).mapM (parse_employee_row fieldnames) = .ok es := by
  induction es with
  | nil => rfl
  | cons e t ih =>
    rw [List.map_cons, List.mapM_cons, h e (List.mem_cons_self _ _),
      ih (fun x hx => h x (List.mem_cons_of_mem _ hx))]
    rfl

/-! ### Universal-newlines translation lemmas -/

theorem isDigit_ne_cr {c : Char} (h : c.isDigit = true) : c ≠ '\r' := by
  intro hc
  subst hc
  simp [Char.isDigit] at h

theorem natStr_no_cr (n : Nat) : ∀ c ∈ (natStr n).data, c ≠ '\r' :=
  fun c hc => isDigit_ne_cr (natDigits_all_digits n c hc)

theorem intStr_no_cr (i : Int) : ∀ c ∈ (intStr i).data, c ≠ '\r' := by
  intro c hc
  rw [intStr] at hc
  split at hc
  · rw [String.data_append] at hc
    rcases List.mem_append.mp hc with h | h
    · simp only [show ("-" : String).data = ['-'] from rfl,
        List.mem_singleton] at h
      subst h
      decide
    · exact natStr_no_cr _ c h
  · exact natStr_no_cr _ c hc

/-- No character of a rendered number is a carriage return. -/
theorem renderNum_no_cr (q : Rat) : ∀ c ∈ (renderNum q).data, c ≠ '\r' := by
  intro c hc
  rw [renderNum] at hc
  cases hdec : decExp q with
  | none =>
    rw [hdec] at hc
    dsimp only at hc
    rw [String.data_append, String.data_append] at hc
    rcases List.mem_append.mp hc with h | h
    · rcases List.mem_append.mp h with h2 | h2
      · exact intStr_no_cr _ c h2
      · simp only [show ("/" : String).data = ['/'] from rfl,
          List.mem_singleton] at h2
        subst h2
        decide
    · exact natStr_no_cr _ c h
  | some k =>
    rw [hdec] at hc
    dsimp only at hc
    have hsign : ∀ x ∈ (if (q * 10 ^ k).num < 0 then "-" else "").data,
        x ≠ '\r' := by
      intro x hx
      split at hx
      · simp only [show ("-" : String).data = ['-'] from rfl,
          List.mem_singleton] at hx
        subst hx
        decide
      · simp at hx
    split at hc
    · rw [String.data_append] at hc
      rcases List.mem_append.mp hc with h | h
      · exact hsign c h
      · exact natStr_no_cr _ c h
    · rw [String.data_append, String.data_append, String.data_append] at hc
      rcases List.mem_append.mp hc with h | h
      · rcases List.mem_append.mp h with h2 | h2
        · rcases List.mem_append.mp h2 with h3 | h3
          · exact hsign c h3
          · exact natStr_no_cr _ c h3
        · simp only [show ("." : String).data = ['.'] from rfl,
            List.mem_singleton] at h2
          subst h2
          decide
      · exact isDigit_ne_cr (padZeros_all_digits _ _ (natDigits_all_digits _) c h)

theorem csvEscapeChars_subset (l : List Char) :
    ∀ c ∈ csvEscapeChars l, c = '"' ∨ c ∈ l := by
  induction l with
  | nil => intro c hc; simp [csvEscapeChars] at hc
  | cons a t ih =>
    intro c hc
    rw [csvEscapeChars] at hc
    split at hc
    · rcases List.mem_cons.mp hc with h | h
      · exact Or.inl h
      · rcases List.mem_cons.mp h with h2 | h2
        · exact Or.inl h2
        · rcases ih c h2 with h3 | h3
          · exact Or.inl h3
          · exact Or.inr (List.mem_cons_of_mem _ h3)
    · rcases List.mem_cons.mp hc with h | h
      · exact Or.inr (h ▸ List.mem_cons_self _ _)
      · rcases ih c h with h3 | h3
        · exact Or.inl h3
        · exact Or.inr (List.mem_cons_of_mem _ h3)

theorem csvField_cr_free (s : String) (hs : ∀ c ∈ s.data, c ≠ '\r') :
    ∀ c ∈ (csvField s).data, c ≠ '\r' := by
  intro c hc
  rw [csvField] at hc
  split at hc
  · rw [String.data_append, String.data_append] at hc
    rcases List.mem_append.mp hc with h | h
    · rcases List.mem_append.mp h with h2 | h2
      · simp only [show ("\"" : String).data = ['"'] from rfl,
          List.mem_singleton] at h2
        subst h2
        decide
      · rcases csvEscapeChars_subset s.data c h2 with h3 | h3
        · subst h3
          decide
        · exact hs c h3
    · simp only [show ("\"" : String).data = ['"'] from rfl,
        List.mem_singleton] at h
      subst h
      decide
  · exact hs c hc

theorem csvRow_cr_free : ∀ r : List String,
    (∀ s ∈ r, ∀ c ∈ s.data, c ≠ '\r') →
    ∀ c ∈ (csvRow r).data, c ≠ '\r' := by
  intro r
  induction r with
  | nil => intro _ c hc; simp [csvRow] at hc
  | cons f t ih =>
    intro hr c hc
    match t with
    | [] =>
      exact csvField_cr_free f (hr f (List.mem_cons_self _ _)) c hc
    | g :: t2 =>
      rw [show csvRow (f :: g :: t2) = csvField f ++ "," ++ csvRow (g :: t2)
        from rfl, String.data_append, String.data_append] at hc
      rcases List.mem_append.mp hc with h | h
      · rcases List.mem_append.mp h with h2 | h2
        · exact csvField_cr_free f (hr f (List.mem_cons_self _ _)) c h2
        · simp only [show ("," : String).data = [','] from rfl,
            List.mem_singleton] at h2
          subst h2
          decide
      · exact ih (fun s hsm => hr s (List.mem_cons_of_mem _ hsm)) c h

theorem universalNewlines_cr_free_append (l1 l2 : List Char)
    (h : ∀ c ∈ l1, c ≠ '\r') :
    universalNewlines (l1 ++ l2) = l1 ++ universalNewlines l2 := by
  induction l1 with
  | nil => simp
  | cons c cs ih =>
    have hc := h c (List.mem_cons_self _ _)
    rw [List.cons_append]
    rw [show universalNewlines (c :: (cs ++ l2)) =
      c :: universalNewlines (cs ++ l2) by
        match hmatch : cs ++ l2 with
        | [] => simp [universalNewlines, hc]
        | d :: ds => simp [universalNewlines, hc]]
    rw [ih (fun x hx => h x (List.mem_cons_of_mem _ hx))]
    rfl

/-- Translating the saved file (rows CRLF-terminated, all fields free
of carriage returns) turns every row terminator into a bare LF and
changes nothing else. -/
theorem universalNewlines_save (rows : List (List String))
    (hcr : ∀ r ∈ rows, ∀ s ∈ r, ∀ c ∈ s.data, c ≠ '\r') :
    universalNewlines
      ((rows.foldr (fun r acc => csvRow r ++ "\r\n" ++ acc) "").data) =
      (rows.foldr (fun r acc => csvRow r ++ "\n" ++ acc) "").data := by
  induction rows with
  | nil => rfl
  | cons r rs ih =>
    rw [List.foldr_cons, List.foldr_cons, String.data_append,
      String.data_append, String.data_append, String.data_append]
    rw [show ("\r\n" : String).data = ['\r', '\n'] from rfl]
    rw [show ("\n" : String).data = ['\n'] from rfl]
    rw [List.append_assoc, List.append_assoc]
    rw [universalNewlines_cr_free_append _ _
      (csvRow_cr_free r (hcr r (List.mem_cons_self _ _)))]
    rw [show ((['\r', '\n'] : List Char) ++
      (rs.foldr (fun r acc => csvRow r ++ "\r\n" ++ acc) "").data) =
      '\r' :: '\n' :: (rs.foldr (fun r acc => csvRow r ++ "\r\n" ++ acc) "").data
      from rfl]
    rw [show universalNewlines ('\r' :: '\n' ::
      (rs.foldr (fun r acc => csvRow r ++ "\r\n" ++ acc) "").data) =
      '\n' :: universalNewlines
        ((rs.foldr (fun r acc => csvRow r ++ "\r\n" ++ acc) "").data) from rfl]
    rw [ih (fun x hx => hcr x (List.mem_cons_of_mem _ hx))]
    rfl

/-! ### LF-terminated scanning (the reader sees translated text) -/

theorem csvScan_field_lf (s : String) (row : List String) (rest : List Char) :
    csvScan false [] row ((csvField s).data ++ '\n' :: rest) =
      (String.mk s.data :: row).reverse :: csvScan false [] [] rest := by
  by_cases hq : csvNeedsQuote s
  · rw [show (csvField s).data = '"' :: (csvEscapeChars s.data ++ ['"']) by
      simp [csvField, hq, String.data_append]]
    rw [show ('"' :: (csvEscapeChars s.data ++ ['"'])) ++ '\n' :: rest =
      '"' :: (csvEscapeChars s.data ++ '"' :: '\n' :: rest) by simp]
    rw [show csvScan false [] row ('"' ::
        (csvEscapeChars s.data ++ '"' :: '\n' :: rest)) =
      csvScan true [] row (csvEscapeChars s.data ++ '"' :: '\n' :: rest)
      from rfl]
    rw [csvScan_quoted s.data [] row '\n' rest (by decide)]
    rw [List.append_nil]
    rw [show csvScan false s.data.reverse row ('\n' :: rest) =
      (String.mk s.data.reverse.reverse :: row).reverse ::
        csvScan false [] [] rest from rfl]
    simp
  · rw [show csvField s = s by simp [csvField, hq]]
    rw [csvScan_plain s.data (csvNeedsQuote_false_plain s (by simpa using hq))]
    rw [List.append_nil]
    rw [show csvScan false s.data.reverse row ('\n' :: rest) =
      (String.mk s.data.reverse.reverse :: row).reverse ::
        csvScan false [] [] rest from rfl]
    simp

theorem csvScan_row_lf (fields : List String) (hne : fields ≠ []) :
    ∀ row rest, csvScan false [] row ((csvRow fields).data ++ '\n' :: rest) =
      (row.reverse ++ fields.map (fun s => String.mk s.data)) ::
        csvScan false [] [] rest := by
  induction fields with
  | nil => exact absurd rfl hne
  | cons f t ih =>
    intro row rest
    match t with
    | [] =>
      rw [show csvRow [f] = csvField f from rfl]
      rw [csvScan_field_lf]
      simp
    | g :: t2 =>
      rw [show csvRow (f :: g :: t2) = csvField f ++ "," ++ csvRow (g :: t2)
        from rfl]
      rw [String.data_append, String.data_append]
      rw [show ("," : String).data = [','] from rfl]
      rw [List.append_assoc, List.append_assoc]
      rw [show (([','] : List Char) ++ ((csvRow (g :: t2)).data ++
        '\n' :: rest)) = ',' :: ((csvRow (g :: t2)).data ++
        '\n' :: rest) from rfl]
      rw [csvScan_field_comma]
      rw [ih (List.cons_ne_nil _ _) (f :: row) rest]
      simp

theorem csvScan_rows_lf (rows : List (List String)) (h : ∀ r ∈ rows, r ≠ []) :
    csvScan false [] []
      (rows.foldr (fun r acc => csvRow r ++ "\n" ++ acc) "").data =
      rows.map (fun r => r.map (fun s => String.mk s.data)) := by
  induction rows with
  | nil => rfl
  | cons r rs ih =>
    rw [List.foldr_cons, String.data_append, String.data_append]
    rw [show ("\n" : String).data = ['\n'] from rfl]
    rw [List.append_assoc]
    rw [show ((['\n'] : List Char) ++
      (rs.foldr (fun r acc => csvRow r ++ "\n" ++ acc) "").data) =
      '\n' :: (rs.foldr (fun r acc => csvRow r ++ "\n" ++ acc) "").data
      from rfl]
    rw [csvScan_row_lf r (h r (List.mem_cons_self _ _))]
    rw [ih (fun x hx => h x (List.mem_cons_of_mem _ hx))]
    simp

/-- Parsing what the text-mode read delivers for the saved file: when
no field contains a carriage return, the translation only rewrites
the row terminators and the reader recovers header and rows exactly. -/
theorem csvParse_load_of_cr_free (employees : List Employee)
    (hcr : ∀ r ∈ fieldnames :: employees.map Employee.toRow,
      ∀ s ∈ r, ∀ c ∈ s.data, c ≠ '\r') :
    csvParse (String.mk (universalNewlines (save_to_csv employees).data)) =
      fieldnames :: employees.map Employee.toRow := by
  have hne : ∀ r ∈ fieldnames :: employees.map Employee.toRow, r ≠ [] := by
    intro r hr
    rcases List.mem_cons.mp hr with h | h
    · subst h
      simp [fieldnames]
    · obtain ⟨e, -, rfl⟩ := List.mem_map.mp h
      simp [Employee.toRow]
  rw [csvParse]
  rw [show (String.mk (universalNewlines (save_to_csv employees).data)).data =
    universalNewlines (save_to_csv employees).data from rfl]
  rw [save_to_csv, universalNewlines_save _ hcr, csvScan_rows_lf _ hne,
    List.map_congr_left (fun r _ => map_mk_data r)]
  exact List.map_id _

/-! ### Claim C8 -/

/-- Value of a rendered natural number: the exponent search stops at
zero and the plain digit string comes out. -/
theorem renderNum_natCast (n : Nat) : renderNum ((n : Nat) : Rat) = natStr n := by
  have hden : ((n : Nat) : Rat).den = 1 := Rat.den_natCast n
  have hdec : decExp ((n : Nat) : Rat) = some 0 := by
    rw [decExp, hden]
    rw [show List.range (1 + 1) = [0, 1] from rfl]
    refine List.find?_cons_of_pos _ ?_
    simp [Rat.den_natCast]
  rw [renderNum, hdec]
  dsimp only
  have hm : (((n : Nat) : Rat) * 10 ^ 0).num = (n : Int) := by
    simp [Rat.num_natCast]
  rw [if_pos rfl, hm, if_neg (not_lt.mpr (Int.natCast_nonneg n)),
    Int.natAbs_ofNat]
  rfl

/-- Counterexample to C8 as originally stated: a name containing a
carriage return is saved quoted as-is, but the text-mode read of
load_from_csv (open without newline='') applies universal newlines,
so the field loads back with the carriage return turned into a line
feed and the round trip is not field-for-field. -/
theorem C8_counterexample :
    load_from_csv (save_to_csv
      [⟨"EMP0001", "A\rB", "Engineering", 83000, "2024-05-01", 7⟩]) =
      .ok [⟨"EMP0001", "A\nB", "Engineering", 83000, "2024-05-01", 7⟩] ∧
    ("A\nB" : String) ≠ "A\rB" := by
  constructor
  · have h83 : renderNum (83000 : Rat) = natStr 83000 := renderNum_natCast 83000
    have h7 : renderNum (7 : Rat) = natStr 7 := renderNum_natCast 7
    have hrow : Employee.toRow
        ⟨"EMP0001", "A\rB", "Engineering", 83000, "2024-05-01", 7⟩ =
        ["EMP0001", "A\rB", "Engineering", natStr 83000, "2024-05-01", natStr 7] := by
      rw [Employee.toRow]
      dsimp only
      rw [h83, h7]
    rw [save_to_csv]
    simp only [List.map_cons, List.map_nil, List.foldr_cons, List.foldr_nil, hrow]
    rfl
  · decide

/-- C8 (amended): saving an employee list with save_to_csv and
reloading the same content with load_from_csv yields the same list
back — same length and every record equal field for field, the
numeric fields recovered exactly through the float() coercion —
PROVIDED no string field contains a carriage return (text-mode
universal newlines rewrite a saved carriage return to a line feed,
the counterexample above; this is the only change the original claim
needs).  The decimal hypothesis on the numeric fields is the
embedding boundary: the exact image of the Python int/float values
those fields can hold. -/
theorem C8_csv_roundtrip (employees : List Employee)
    (h : ∀ e ∈ employees, decimalRep e.salary ∧ decimalRep e.performance_score ∧
      (∀ c ∈ e.emp_id.data, c ≠ '\r') ∧ (∀ c ∈ e.name.data, c ≠ '\r') ∧
      (∀ c ∈ e.department.data, c ≠ '\r') ∧
      (∀ c ∈ e.joining_date.data, c ≠ '\r')) :
    load_from_csv (save_to_csv employees) = .ok employees ∧
    ∀ out, load_from_csv (save_to_csv employees) = .ok out →
      out.length = employees.length := by
  have hcr : ∀ r ∈ fieldnames :: employees.map Employee.toRow,
      ∀ s ∈ r, ∀ c ∈ s.data, c ≠ '\r' := by
    intro r hr
    rcases List.mem_cons.mp hr with hh | hh
    · subst hh
      intro s hs
      fin_cases hs <;> decide
    · obtain ⟨e, he, rfl⟩ := List.mem_map.mp hh
      obtain ⟨-, -, h1, h2, h3, h4⟩ := h e he
      intro s hs c hc
      rw [Employee.toRow] at hs
      rcases List.mem_cons.mp hs with rfl | hs
      · exact h1 c hc
      rcases List.mem_cons.mp hs with rfl | hs
      · exact h2 c hc
      rcases List.mem_cons.mp hs with rfl | hs
      · exact h3 c hc
      rcases List.mem_cons.mp hs with rfl | hs
      · exact renderNum_no_cr _ c hc
      rcases List.mem_cons.mp hs with rfl | hs
      · exact h4 c hc
      rcases List.mem_cons.mp hs with rfl | hs
      · exact renderNum_no_cr _ c hc
      · simp at hs
  have hload : load_from_csv (save_to_csv employees) =
      (employees.map Employee.toRow).mapM (parse_employee_row fieldnames) := by
    rw [load_from_csv, csvParse_load_of_cr_free employees hcr]
  have hok : (employees.map Employee.toRow).mapM
      (parse_employee_row fieldnames) = .ok employees :=
    mapM_parse_toRow employees (fun e he =>
      parse_employee_row_toRow e
        (parseFloat_renderNum _ (h e he).1)
        (parseFloat_renderNum _ (h e he).2.1))
  refine ⟨hload.trans hok, ?_⟩
  intro out hout
  rw [hload.trans hok] at hout
  cases hout
  rfl

/-- Witness for the amended C8: a single employee whose name needs CSV
quoting (comma and quotes, no carriage return) and whose performance
score has a fractional decimal part. -/
theorem C8_csv_roundtrip_witness :
    (∀ e ∈ ([⟨"EMP0001", "Khan, Ahmed \"AK\"", "Engineering", 83000,
        "2024-05-01", 73 / 10⟩] : List Employee),
      decimalRep e.salary ∧ decimalRep e.performance_score ∧
      (∀ c ∈ e.emp_id.data, c ≠ '\r') ∧ (∀ c ∈ e.name.data, c ≠ '\r') ∧
      (∀ c ∈ e.department.data, c ≠ '\r') ∧
      (∀ c ∈ e.joining_date.data, c ≠ '\r')) ∧
    load_from_csv (save_to_csv
      [⟨"EMP0001", "Khan, Ahmed \"AK\"", "Engineering", 83000,
        "2024-05-01", 73 / 10⟩]) =
      .ok [⟨"EMP0001", "Khan, Ahmed \"AK\"", "Engineering", 83000,
        "2024-05-01", 73 / 10⟩] := by
  have hyp : ∀ e ∈ ([⟨"EMP0001", "Khan, Ahmed \"AK\"", "Engineering", 83000,
      "2024-05-01", 73 / 10⟩] : List Employee),
      decimalRep e.salary ∧ decimalRep e.performance_score ∧
      (∀ c ∈ e.emp_id.data, c ≠ '\r') ∧ (∀ c ∈ e.name.data, c ≠ '\r') ∧
      (∀ c ∈ e.department.data, c ≠ '\r') ∧
      (∀ c ∈ e.joining_date.data, c ≠ '\r') := by
    intro e he
    simp only [List.mem_singleton] at he
    subst he
    refine ⟨⟨0, ?_, Nat.zero_le _⟩, ⟨1, ?_, Rat.den_pos _⟩, ?_, ?_, ?_, ?_⟩
    · norm_num [Rat.den_ofNat]
    · norm_num [Rat.den_ofNat]
    · decide
    · decide
    · decide
    · decide
  exact ⟨hyp, (C8_csv_roundtrip _ hyp).1⟩

end EmployeeSystem
